import Mathlib

/-!
# Verification of the live quiz engine (Kahoot_clone)

Shallow embedding of the answer-evaluation pipeline (`server/evaluation.js`,
`server/settings.js`, `server/llmJudge.js`) and of the live session engine
(`server.js`), together with theorems settling the specification claims.

Strings are modelled as lists of Unicode code points (`List Nat`), so that the
character-level steps of `normaliseAnswer` (NFKD decomposition, combining-mark
stripping, lower-casing, punctuation removal, whitespace collapsing) can be
stated and proved exactly.  The Unicode tables (`String.prototype.normalize`,
`toLowerCase`, the `\p{L}`/`\p{N}`/`\s` classes) are modelled on the repertoire
exercised by the program's quiz data: Basic Latin and Latin-1, plus the code
points produced by their NFKD decompositions.  Code points outside that
repertoire are taken as decomposition-fixed, case-fixed non-letters.
-/

namespace Quiz

instance {ε α : Type} [DecidableEq ε] [DecidableEq α] : DecidableEq (Except ε α) :=
  fun a b =>
    match a, b with
    | .ok x, .ok y => decidable_of_iff (x = y) (by simp)
    | .error x, .error y => decidable_of_iff (x = y) (by simp)
    | .error _, .ok _ => isFalse (by simp)
    | .ok _, .error _ => isFalse (by simp)

/-! ## Character-level Unicode model (for `normaliseAnswer`) -/

/-- Combining marks stripped by `normaliseAnswer`
(the JS regex `/[̀-ͯ]/g`). -/
def isCombiningN (n : Nat) : Bool := 0x300 ≤ n && n ≤ 0x36F

/-- Apostrophe variants removed by `normaliseAnswer`
(the JS regex `/[’‘‛´\x60']/g`). -/
def isApostropheN (n : Nat) : Bool :=
  n == 0x2019 || n == 0x2018 || n == 0x201B || n == 0xB4 || n == 0x60 || n == 0x27

/-- Double-quote variants mapped to `"` (the JS regex `/[“”„«»]/g`). -/
def isDoubleQuoteN (n : Nat) : Bool :=
  n == 0x201C || n == 0x201D || n == 0x201E || n == 0xAB || n == 0xBB

/-- Dash variants mapped to `-` (the JS regex `/[–—−]/g`). -/
def isDashN (n : Nat) : Bool := n == 0x2013 || n == 0x2014 || n == 0x2212

/-- The JS `\s` class (whitespace matched by `/\s+/g` and removed by trim). -/
def isSpaceN (n : Nat) : Bool :=
  (9 ≤ n && n ≤ 13) || n == 32 || n == 0xA0 || n == 0x1680 ||
  (0x2000 ≤ n && n ≤ 0x200A) || n == 0x2028 || n == 0x2029 ||
  n == 0x202F || n == 0x205F || n == 0x3000 || n == 0xFEFF

/-- The `\p{L}` letter class of the final keep-filter, modelled on the Basic
Latin / Latin-1 repertoire (plus U+03BC produced by NFKD of U+00B5). -/
def isLetterN (n : Nat) : Bool :=
  (0x61 ≤ n && n ≤ 0x7A) || (0x41 ≤ n && n ≤ 0x5A) ||
  (0xC0 ≤ n && n ≤ 0xFF && n != 0xD7 && n != 0xF7) || n == 0x3BC

/-- The `\p{N}` number class, modelled on the ASCII digits. -/
def isDigitN (n : Nat) : Bool := 0x30 ≤ n && n ≤ 0x39

/-- `String.prototype.toLowerCase`, modelled on Basic Latin / Latin-1:
`A`–`Z` and `À`–`Þ` (except `×`) shift by 32; everything else is fixed. -/
def toLowerN (n : Nat) : Nat :=
  if 0x41 ≤ n ∧ n ≤ 0x5A then n + 32
  else if 0xC0 ≤ n ∧ n ≤ 0xDE ∧ n ≠ 0xD7 then n + 32
  else n

/-- `String.prototype.normalize('NFKD')` at the level of a single code point,
modelled on the Latin-1 repertoire: the precomposed Latin-1 letters decompose
into base letter + combining mark, the Latin-1 compatibility characters
(ª º ² ³ ¹ µ ¼ ½ ¾) decompose as in Unicode, and all other modelled code
points are decomposition-fixed. -/
def nfkdN (n : Nat) : List Nat :=
  match n with
  | 0xAA => [0x61]
  | 0xB2 => [0x32]
  | 0xB3 => [0x33]
  | 0xB5 => [0x3BC]
  | 0xB9 => [0x31]
  | 0xBA => [0x6F]
  | 0xBC => [0x31, 0x2044, 0x34]
  | 0xBD => [0x31, 0x2044, 0x32]
  | 0xBE => [0x33, 0x2044, 0x34]
  | 0xC0 => [0x41, 0x300]
  | 0xC1 => [0x41, 0x301]
  | 0xC2 => [0x41, 0x302]
  | 0xC3 => [0x41, 0x303]
  | 0xC4 => [0x41, 0x308]
  | 0xC5 => [0x41, 0x30A]
  | 0xC7 => [0x43, 0x327]
  | 0xC8 => [0x45, 0x300]
  | 0xC9 => [0x45, 0x301]
  | 0xCA => [0x45, 0x302]
  | 0xCB => [0x45, 0x308]
  | 0xCC => [0x49, 0x300]
  | 0xCD => [0x49, 0x301]
  | 0xCE => [0x49, 0x302]
  | 0xCF => [0x49, 0x308]
  | 0xD1 => [0x4E, 0x303]
  | 0xD2 => [0x4F, 0x300]
  | 0xD3 => [0x4F, 0x301]
  | 0xD4 => [0x4F, 0x302]
  | 0xD5 => [0x4F, 0x303]
  | 0xD6 => [0x4F, 0x308]
  | 0xD9 => [0x55, 0x300]
  | 0xDA => [0x55, 0x301]
  | 0xDB => [0x55, 0x302]
  | 0xDC => [0x55, 0x308]
  | 0xDD => [0x59, 0x301]
  | 0xE0 => [0x61, 0x300]
  | 0xE1 => [0x61, 0x301]
  | 0xE2 => [0x61, 0x302]
  | 0xE3 => [0x61, 0x303]
  | 0xE4 => [0x61, 0x308]
  | 0xE5 => [0x61, 0x30A]
  | 0xE7 => [0x63, 0x327]
  | 0xE8 => [0x65, 0x300]
  | 0xE9 => [0x65, 0x301]
  | 0xEA => [0x65, 0x302]
  | 0xEB => [0x65, 0x308]
  | 0xEC => [0x69, 0x300]
  | 0xED => [0x69, 0x301]
  | 0xEE => [0x69, 0x302]
  | 0xEF => [0x69, 0x308]
  | 0xF1 => [0x6E, 0x303]
  | 0xF2 => [0x6F, 0x300]
  | 0xF3 => [0x6F, 0x301]
  | 0xF4 => [0x6F, 0x302]
  | 0xF5 => [0x6F, 0x303]
  | 0xF6 => [0x6F, 0x308]
  | 0xF9 => [0x75, 0x300]
  | 0xFA => [0x75, 0x301]
  | 0xFB => [0x75, 0x302]
  | 0xFC => [0x75, 0x308]
  | 0xFD => [0x79, 0x301]
  | 0xFF => [0x79, 0x308]
  | m => [m]

/-! ## `normaliseAnswer` (evaluation.js lines 20–40) -/

/-- One maximal run of `\s` characters becomes a single space
(the JS `.replace(/\s+/g, ' ')`). -/
def collapseWs (l : List Nat) : List Nat :=
  l.foldr
    (fun n acc =>
      if isSpaceN n then
        match acc with
        | 0x20 :: _ => acc
        | _ => 0x20 :: acc
      else n :: acc)
    []

/-- Leading and trailing whitespace removal (the JS `.trim()`). -/
def trimEdges (l : List Nat) : List Nat :=
  ((l.dropWhile isSpaceN).reverse.dropWhile isSpaceN).reverse

/-- `.normalize('NFKD')` over a whole string. -/
def nfkdStage (l : List Nat) : List Nat := (l.map nfkdN).flatten

/-- `.replace(/[̀-ͯ]/g, '')`. -/
def stripMarksStage (l : List Nat) : List Nat := l.filter (fun n => !isCombiningN n)

/-- `.replace(/[’‘‛´\x60']/g, '')`. -/
def stripApostrophesStage (l : List Nat) : List Nat :=
  l.filter (fun n => !isApostropheN n)

/-- `.replace(/[“”„«»]/g, '"')`. -/
def quotesStage (l : List Nat) : List Nat :=
  l.map (fun n => if isDoubleQuoteN n then 0x22 else n)

/-- `.replace(/[–—−]/g, '-')`. -/
def dashesStage (l : List Nat) : List Nat :=
  l.map (fun n => if isDashN n then 0x2D else n)

/-- `.toLowerCase()`. -/
def lowerStage (l : List Nat) : List Nat := l.map toLowerN

/-- `.replace(/[^\p{L}\p{N}\s]/gu, ' ')`. -/
def keepStage (l : List Nat) : List Nat :=
  l.map (fun n => if (isLetterN n || isDigitN n) || isSpaceN n then n else 0x20)

/-- `normaliseAnswer` from evaluation.js on code-point lists: NFKD, strip
combining marks, drop apostrophes, unify double quotes and dashes, lower-case,
replace non-letter/number/space by a space, collapse whitespace, trim. -/
def normaliseCore (l : List Nat) : List Nat :=
  trimEdges (collapseWs (keepStage (lowerStage (dashesStage (quotesStage
    (stripApostrophesStage (stripMarksStage (nfkdStage l))))))))

/-- The code points with an entry in the modelled NFKD table. -/
def nfkdKeys : List Nat :=
  [0xAA, 0xB2, 0xB3, 0xB5, 0xB9, 0xBA, 0xBC, 0xBD, 0xBE,
   0xC0, 0xC1, 0xC2, 0xC3, 0xC4, 0xC5, 0xC7, 0xC8, 0xC9, 0xCA, 0xCB,
   0xCC, 0xCD, 0xCE, 0xCF, 0xD1, 0xD2, 0xD3, 0xD4, 0xD5, 0xD6,
   0xD9, 0xDA, 0xDB, 0xDC, 0xDD,
   0xE0, 0xE1, 0xE2, 0xE3, 0xE4, 0xE5, 0xE7, 0xE8, 0xE9, 0xEA, 0xEB,
   0xEC, 0xED, 0xEE, 0xEF, 0xF1, 0xF2, 0xF3, 0xF4, 0xF5, 0xF6,
   0xF9, 0xFA, 0xFB, 0xFC, 0xFD, 0xFF]

/-- A code point that passes every character-level step of `normaliseAnswer`
unchanged: a letter/digit/plain space that is NFKD-fixed, not a combining
mark, apostrophe, quote or dash, lower-case-fixed, and whose only space
form is U+0020. -/
def cleanChar (n : Nat) : Bool :=
  ((isLetterN n || isDigitN n) || n == 0x20) &&
  (nfkdN n == [n]) && !isCombiningN n && !isApostropheN n &&
  !isDoubleQuoteN n && !isDashN n && (toLowerN n == n) &&
  (!isSpaceN n || n == 0x20)

/-- `normaliseAnswer` on Lean strings. -/
def normaliseAnswer (s : String) : String :=
  String.mk ((normaliseCore (s.data.map Char.toNat)).map Char.ofNat)

/-- Two adjacent output positions are never both whitespace — the shape
guaranteed by the whitespace-collapse stage. -/
def spacedApart (a b : Nat) : Prop := ¬(isSpaceN a = true ∧ isSpaceN b = true)

/-! ## Strictness profiles (settings.js) -/

inductive Strictness where
  | strict
  | normal
  | lenient
deriving DecidableEq, Repr

/-- The rule-matching configuration object returned by
`getRuleMatchingConfig` in settings.js.  The evaluator additionally reads an
`llmPrimaryEnabled` flag which settings.js never sets (so it is always
`undefined`, i.e. `false`); it is carried here explicitly. -/
structure RuleConfig where
  allowCompactMatch : Bool
  allowCloseMatch : Bool
  allowSynonyms : Bool
  allowSubstrings : Bool
  closeMatchThreshold : ℚ
  allowLLMFallback : Bool
  llmPrimaryEnabled : Bool
deriving DecidableEq, Repr

/-- `getRuleMatchingConfig` from settings.js: a persisted `llmFallbackEnabled`
setting (when present) overrides the strictness-derived `allowLLMFallback`. -/
def getRuleMatchingConfig (strictness : Strictness)
    (llmFallbackOverride : Option Bool) : RuleConfig :=
  let notStrict : Bool := strictness != .strict
  { allowCompactMatch := true
    allowCloseMatch := notStrict
    allowSynonyms := notStrict
    allowSubstrings := notStrict
    closeMatchThreshold := if strictness = .lenient then 75/100 else 8/10
    allowLLMFallback :=
      match llmFallbackOverride with
      | some b => b
      | none => notStrict
    llmPrimaryEnabled := false }

/-! ## Edit distance and the close-match heuristic (evaluation.js 42–84) -/

/-- One row of the Levenshtein DP matrix (the inner `for j` loop of the JS):
`prev` starts at the previous full row, `cPrev` is the entry just written to
the current row; `cur[j] = min(prev[j] + 1, cur[j-1] + 1, prev[j-1] + cost)`. -/
def levRow (x : Char) : List Char → List Nat → Nat → List Nat
  | [], _, _ => []
  | y :: ys, prev, cPrev =>
    match prev with
    | [] => []
    | pj1 :: rest =>
      let pj := rest.headD 0
      let c := Nat.min (Nat.min (pj + 1) (cPrev + 1))
        (pj1 + (if x = y then 0 else 1))
      c :: levRow x ys rest c

/-- `levenshtein` from evaluation.js: early returns for equal/empty inputs,
then the row-by-row DP matrix (`matrix[0][j] = j`, each outer step computes
`matrix[i][·]` from `matrix[i-1][·]`), answering `matrix[n][m]`. -/
def levenshtein (a b : List Char) : Nat :=
  if a = b then 0
  else if a.length = 0 then b.length
  else if b.length = 0 then a.length
  else
    let initRow := List.range (b.length + 1)
    let finalRow := a.foldl
      (fun prev x => (prev.headD 0 + 1) :: levRow x b prev (prev.headD 0 + 1))
      initRow
    finalRow.getLastD 0

/-- `isCloseMatch` from evaluation.js. -/
def isCloseMatch (submitted expected : String) (cfg : RuleConfig) : Bool :=
  let distance := levenshtein submitted.data expected.data
  let maxLen0 := max submitted.length expected.length
  let maxLen := if maxLen0 == 0 then 1 else maxLen0
  let closeness : ℚ := 1 - (distance : ℚ) / (maxLen : ℚ)
  if cfg.closeMatchThreshold ≤ closeness then true
  else if distance == 1 && 3 ≤ min submitted.length expected.length then true
  else if distance == 2 && 6 ≤ maxLen &&
      max (65/100 : ℚ) (cfg.closeMatchThreshold - 1/10) ≤ closeness then true
  else if cfg.allowSubstrings then
    (5 ≤ submitted.length && decide (List.IsInfix submitted.data expected.data)) ||
    (5 ≤ expected.length && decide (List.IsInfix expected.data submitted.data))
  else false

/-! ## Synonym lookup and its cache (evaluation.js 86–127)

The module-level `synonymCache` is threaded explicitly; the public
dictionary endpoint is an oracle (`none` models any network/HTTP failure,
which the code turns into a cached empty list). -/

/-- The module-level `synonymCache` map, keyed by normalised word.  New
entries are prepended; `lookup` finds the most recent binding. -/
abbrev SynCache := List (String × List String)

/-- The external dictionary endpoint: `none` models a failed request
(`!response.ok` or a thrown fetch error), `some raw` the list of synonym
strings collected from the response payload in order. -/
structure SynOracle where
  fetch : String → Option (List String)

/-- First-occurrence deduplication (the JS `Set` insertion order). -/
def dedupStr (l : List String) : List String :=
  go [] l
where
  go : List String → List String → List String
    | _, [] => []
    | seen, x :: xs => if x ∈ seen then go seen xs else x :: go (x :: seen) xs

/-- The processing of a successful dictionary response: each synonym is
normalised as it enters the `Set`, then empty strings are dropped. -/
def processSynPayload (raw : List String) : List String :=
  (dedupStr (raw.map normaliseAnswer)).filter (fun s => s ≠ "")

/-- `fetchSynonyms` from evaluation.js: empty words are not looked up;
multi-word phrases are cached as `[]`; otherwise the cache is consulted and
on a miss the oracle result (or `[]` on failure) is cached. -/
def fetchSynonyms (oracle : SynOracle) (cache : SynCache) (word : String) :
    List String × SynCache :=
  let normalized := normaliseAnswer word
  if normalized = "" then ([], cache)
  else if normalized.data.contains ' ' then ([], (normalized, []) :: cache)
  else
    match cache.lookup normalized with
    | some r => (r, cache)
    | none =>
      match oracle.fetch normalized with
      | none => ([], (normalized, []) :: cache)
      | some raw =>
        let result := processSynPayload raw
        (result, (normalized, result) :: cache)

/-- The sequential threading of `fetchSynonyms` over the expected answers
(`Promise.all` in JS; the oracle is a fixed function, so the arrival order
does not change any result). -/
def fetchAllSynonyms (oracle : SynOracle) :
    SynCache → List String → List (List String) × SynCache
  | cache, [] => ([], cache)
  | cache, w :: ws =>
    let (r, cache') := fetchSynonyms oracle cache w
    let (rs, cache'') := fetchAllSynonyms oracle cache' ws
    (r :: rs, cache'')

/-- `collectSynonyms` from evaluation.js. -/
def collectSynonyms (oracle : SynOracle) (cache : SynCache)
    (answers : List String) : List String × SynCache :=
  let (lists, cache') := fetchAllSynonyms oracle cache answers
  (dedupStr (lists.flatten.filter (fun s => s ≠ "")), cache')

/-! ## The semantic judge boundary (llmJudge.js) -/

/-- The verdicts `judgeAnswerWithLlm` can return; any other string from a
provider is rejected inside llmJudge.js before reaching the evaluator. -/
inductive LlmVerdict where
  | good
  | almost
  | bad
deriving DecidableEq, Repr

/-- A successful response of `judgeAnswerWithLlm` (verdict validated,
confidence clamped to [0,1]). -/
structure LlmResponse where
  verdict : LlmVerdict
  confidence : ℚ
  suggestedAnswer : String
deriving Repr

/-- The judge as seen from `evaluateAnswer`: `configured` is
`isLlmJudgeConfigured()`, `threshold` is `getLlmConfidenceThreshold()`, and
`respond = none` models `judgeAnswerWithLlm` rejecting (all providers failed:
timeout, HTTP error, malformed/absent JSON). -/
structure LlmJudge where
  configured : Bool
  threshold : ℚ
  respond : Option LlmResponse

/-! ## `evaluateAnswer` (evaluation.js 139–303) -/

/-- A quiz question as consumed by the evaluator and the session engine. -/
structure Question where
  prompt : String
  answer : String
  alternateAnswers : List String
  partialAnswers : List String
  duration : Option ℚ
deriving DecidableEq, Repr

/-- The timing options of `evaluateAnswer` (`debug`, `context` and
`gradingCondition` only affect logging and the judge prompt text). -/
structure EvalOptions where
  durationMs : Option ℚ
  timeRemainingMs : Option ℚ
  includeSpeedBonus : Bool
deriving DecidableEq, Repr

/-- JS `Math.round` (half-up, toward +∞). -/
def jround (q : ℚ) : ℤ := ⌊q + 1/2⌋

/-- `calculateSpeedBonus` from evaluation.js (129–137): `none` timing models
a `null`/non-finite argument. -/
def calculateSpeedBonus (durationMs timeRemainingMs : Option ℚ)
    (includeSpeedBonus : Bool) : ℤ :=
  if !includeSpeedBonus then 0
  else
    match durationMs, timeRemainingMs with
    | some d, some r =>
      if 0 < d ∧ 0 ≤ r then jround (max 0 r / d * 500) else 0
    | _, _ => 0

/-- JS `.replace(/\s+/g, '')` used for the compact comparison. -/
def removeSpaces (s : String) : String :=
  String.mk (s.data.filter (fun c => !isSpaceN c.toNat))

/-- The verdict state accumulated by `evaluateAnswer` before scoring. -/
structure VerdictState where
  isCorrect : Bool
  isPartial : Bool
  judgedBy : String
  llmSuggestedAnswer : String
deriving DecidableEq, Repr

/-- The rule-based matching ladder (evaluation.js 210–250): synonyms are
collected (when enabled), then exact/compact match, the explicit
partial-credit list, the synonym list, and the close-match heuristic are
tried in order. -/
def rulesLadder (oracle : SynOracle) (cache : SynCache)
    (expectedAnswers : List String) (normalizedSubmitted : String)
    (normalizedExpected normalizedPartial : List String) (cfg : RuleConfig) :
    (Bool × Bool) × SynCache :=
  let (normalizedSynonyms, cache') :=
    if cfg.allowSynonyms then collectSynonyms oracle cache expectedAnswers
    else ([], cache)
  let compactSubmitted := removeSpaces normalizedSubmitted
  let compactExpected := normalizedExpected.map removeSpaces
  let isCorrect :=
    normalizedExpected.any (fun e => normalizedSubmitted == e) ||
    (cfg.allowCompactMatch && compactSubmitted != "" &&
      compactExpected.any (fun e => e == compactSubmitted))
  let isPartial :=
    if isCorrect then false
    else if normalizedPartial.contains normalizedSubmitted then true
    else if cfg.allowSynonyms && normalizedSynonyms.contains normalizedSubmitted then
      true
    else if cfg.allowCloseMatch then
      if cfg.allowSynonyms &&
          normalizedSynonyms.any (fun syn => isCloseMatch normalizedSubmitted syn cfg) then
        true
      else normalizedExpected.any (fun e => isCloseMatch normalizedSubmitted e cfg)
    else false
  ((isCorrect, isPartial), cache')

/-- The verdict portion of `evaluateAnswer` (evaluation.js 149–281):
optional LLM-primary adjudication, the rule ladder, and the LLM fallback.
`Except.error` models the promise rejecting: both `await judgeAnswerWithLlm`
call sites have no try/catch, so a judge failure propagates out of
`evaluateAnswer`. -/
def decideVerdict (judge : LlmJudge) (oracle : SynOracle) (cache : SynCache)
    (question : Question) (submission : String) (cfg : RuleConfig) :
    Except Unit VerdictState × SynCache :=
  let expectedAnswers := (question.answer :: question.alternateAnswers).filter (fun s => s ≠ "")
  let normalizedSubmitted := normaliseAnswer submission
  let normalizedExpected := expectedAnswers.map normaliseAnswer
  let normalizedPartial := question.partialAnswers.map normaliseAnswer
  if cfg.llmPrimaryEnabled ∧ judge.configured ∧ normalizedSubmitted ≠ "" then
    -- LLM primary (175–208); dead code under settings.js, kept faithfully.
    match judge.respond with
    | none => (.error (), cache)
    | some r =>
      if judge.threshold ≤ r.confidence then
        match r.verdict with
        | .good => (.ok ⟨true, false, "llm", ""⟩, cache)
        | .almost => (.ok ⟨false, true, "llm", ""⟩, cache)
        | .bad => (.ok ⟨false, false, "llm", r.suggestedAnswer⟩, cache)
      else
        -- below threshold: fall through to the rules; the fallback is
        -- skipped because llmAlreadyTried is set.
        let ((c, p), cache') := rulesLadder oracle cache expectedAnswers
          normalizedSubmitted normalizedExpected normalizedPartial cfg
        (.ok ⟨c, p, "rules", ""⟩, cache')
  else
    let ((c, p), cache') := rulesLadder oracle cache expectedAnswers
      normalizedSubmitted normalizedExpected normalizedPartial cfg
    if !c ∧ !p ∧ cfg.allowLLMFallback ∧ judge.configured ∧ normalizedSubmitted ≠ "" then
      match judge.respond with
      | none => (.error (), cache')
      | some r =>
        if r.verdict = .good ∧ judge.threshold ≤ r.confidence then
          (.ok ⟨true, false, "llm", ""⟩, cache')
        else if r.verdict = .almost ∧ judge.threshold ≤ r.confidence then
          (.ok ⟨false, true, "llm", ""⟩, cache')
        else if r.verdict = .bad ∧ judge.threshold ≤ r.confidence then
          -- the fallback BAD arm records the suggestion but leaves
          -- judgedBy as "rules" (evaluation.js 275–280)
          (.ok ⟨false, false, "rules", r.suggestedAnswer⟩, cache')
        else (.ok ⟨false, false, "rules", ""⟩, cache')
    else (.ok ⟨c, p, "rules", ""⟩, cache')

/-- The result object of `evaluateAnswer`; `suggestedAnswer = ""` models the
field being absent. -/
structure EvalResult where
  isCorrect : Bool
  isPartial : Bool
  earned : ℤ
  correctAnswer : String
  playerAnswer : String
  judgedBy : String
  suggestedAnswer : String
deriving DecidableEq, Repr

/-- `evaluateAnswer` from evaluation.js: verdict, then scoring
(283–302): base 1000 plus speed bonus for `Correct`, half of that rounded
once for `Partial`, 0 for `Wrong`. -/
def evaluateAnswer (judge : LlmJudge) (oracle : SynOracle) (cache : SynCache)
    (question : Question) (submission : String) (opts : EvalOptions)
    (cfg : RuleConfig) : Except Unit EvalResult × SynCache :=
  match decideVerdict judge oracle cache question submission cfg with
  | (.error e, cache') => (.error e, cache')
  | (.ok v, cache') =>
    let speedBonus := calculateSpeedBonus opts.durationMs opts.timeRemainingMs
      opts.includeSpeedBonus
    let baseScore := 1000 + speedBonus
    let earned :=
      if v.isCorrect then baseScore
      else if v.isPartial then jround ((baseScore : ℚ) / 2)
      else 0
    (.ok { isCorrect := v.isCorrect
           isPartial := v.isPartial
           earned := earned
           correctAnswer := question.answer
           playerAnswer := submission
           judgedBy := v.judgedBy
           suggestedAnswer :=
             if !v.isCorrect && !v.isPartial then v.llmSuggestedAnswer else "" },
     cache')

/-! ## The live session engine (server.js)

One session of the registry, with timers modelled as pending flags: a
`setTimeout` handle is pending from scheduling until it fires or is
`clearTimeout`-ed; a fire event applies only while pending.  Player and
socket identifiers are opaque; code points of the engine that only emit
events or persist snapshots are not part of the state. -/

/-- A roster entry (`session.players` value, server.js 941–950). -/
structure Player where
  id : Nat
  socketId : Option Nat
  name : String
  score : ℤ
  isConnected : Bool
  lastSeen : ℤ
  disconnectedAt : Option ℤ
  disconnectTimer : Bool
deriving DecidableEq, Repr

/-- Which callback a pending `leaderboardTimer` will run
(server.js 739–746): advance to the next question, or emit `quiz:finished`
and prune disconnected players. -/
inductive LbTimerKind where
  | next
  | finish
deriving DecidableEq, Repr

/-- A live session (`createSessionFromTemplate`, server.js 632–658). -/
structure Session where
  hostId : Option Nat
  players : List Player
  baseQuestions : List Question
  baseQuestionCount : Nat
  questions : List Question
  runSettingsCount : Nat
  runSettingsShuffle : Bool
  runSettingsConfirmed : Bool
  questionDuration : ℚ
  currentQuestionIndex : ℤ
  questionStart : Option ℤ
  answers : List Nat
  questionActive : Bool
  questionTimer : Bool
  leaderboardTimer : Option LbTimerKind
  lobbyTimer : Bool
  lobbyExpiresAt : Option ℤ
deriving DecidableEq, Repr

/-- `createSessionFromTemplate` (server.js 632–658). -/
def createSessionFromTemplate (templateQuestions : List Question)
    (templateDuration : ℚ) (hostId : Option Nat) : Session :=
  { hostId := hostId
    players := []
    baseQuestions := templateQuestions
    baseQuestionCount := templateQuestions.length
    questions := templateQuestions
    runSettingsCount := templateQuestions.length
    runSettingsShuffle := false
    runSettingsConfirmed := templateQuestions.length ≤ 10
    questionDuration := templateDuration
    currentQuestionIndex := -1
    questionStart := none
    answers := []
    questionActive := false
    questionTimer := false
    leaderboardTimer := none
    lobbyTimer := false
    lobbyExpiresAt := none }

/-- `findPlayerBySocket` (server.js 660–667). -/
def findPlayerBySocket (s : Session) (sid : Nat) : Option Player :=
  s.players.find? (fun p => p.socketId == some sid)

/-- Point update of one roster entry (JS mutates the map value in place). -/
def updatePlayer (s : Session) (pid : Nat) (f : Player → Player) : Session :=
  { s with players := s.players.map (fun p => if p.id == pid then f p else p) }

/-- `countConnectedPlayers` (server.js 373–379). -/
def countConnectedPlayers (s : Session) : Nat :=
  (s.players.filter (fun p => p.isConnected)).length

/-- `pruneDisconnectedPlayers` (server.js 381–394). -/
def pruneDisconnectedPlayers (s : Session) : Session :=
  { s with players := s.players.filter (fun p => p.isConnected) }

/-- `clearQuestionState` (server.js 532–544). -/
def clearQuestionState (s : Session) : Session :=
  { s with questionActive := false
           questionStart := none
           answers := []
           questionTimer := false
           leaderboardTimer := none }

/-- `scheduleLeaderboard` (server.js 726–747): broadcasts the leaderboard and
schedules either the next question or the finish callback. -/
def scheduleLeaderboard (s : Session) : Session :=
  let hasMoreQuestions := s.currentQuestionIndex + 1 < (s.questions.length : ℤ)
  { s with leaderboardTimer := some (if hasMoreQuestions then .next else .finish) }

/-- `startQuestion` (server.js 749–796). -/
def startQuestion (now : ℤ) (s : Session) : Session :=
  if s.hostId.isSome ∧ 10 < s.baseQuestionCount ∧ ¬s.runSettingsConfirmed ∧
      s.currentQuestionIndex = -1 then
    s
  else
    let s := { s with leaderboardTimer := none }
    if s.questionActive then s
    else
      let nextIndex := s.currentQuestionIndex + 1
      if (s.questions.length : ℤ) ≤ nextIndex then s
      else
        { s with currentQuestionIndex := nextIndex
                 questionStart := some now
                 questionActive := true
                 answers := []
                 lobbyTimer := false
                 lobbyExpiresAt := none
                 questionTimer := true }

/-- `endQuestion` (server.js 798–811). -/
def endQuestion (s : Session) : Session :=
  if ¬s.questionActive then s
  else scheduleLeaderboard (clearQuestionState s)

/-- `shuffleInPlace` (server.js 613–618), with the `Math.random` draws given
as a list; the draw for position `i` is reduced `mod (i+1)` exactly as
`Math.floor(Math.random() * (i + 1))` lands in `[0, i]`. -/
def swapAt {α : Type} (l : List α) (i j : Nat) : List α :=
  match l.get? i, l.get? j with
  | some a, some b => (l.set i b).set j a
  | _, _ => l

def fisherYatesGo {α : Type} : List α → Nat → List Nat → List α
  | l, 0, _ => l
  | l, i+1, rand => fisherYatesGo (swapAt l (i+1) (rand.headD 0 % (i+2))) i rand.tail

def shuffleInPlace {α : Type} (rand : List Nat) (l : List α) : List α :=
  fisherYatesGo l (l.length - 1) rand

/-- `buildRunQuestions` (server.js 620–630); `count = none` models a
`NaN` parse result. -/
def buildRunQuestions (baseQuestions : List Question) (count : Option ℤ)
    (shuffle : Bool) (rand : List Nat) : List Question :=
  let cloned := baseQuestions
  let maxq : ℤ := cloned.length
  let desired : ℤ :=
    match count with
    | none => maxq
    | some d => if d ≤ 0 then maxq else d
  let desired := Max.max 1 (Min.min desired maxq)
  let cloned := if shuffle then shuffleInPlace rand cloned else cloned
  cloned.take desired.toNat

/-- The `host:configureRun` handler (server.js 993–1039), as received from
the bound host.  `baseQuestions` is set at session creation, so the
`session.baseQuestions || …` fallback chain resolves to it. -/
def configureRun (count : Option ℤ) (shuffle : Bool) (rand : List Nat)
    (s : Session) : Session :=
  if s.currentQuestionIndex ≠ -1 ∨ s.questionActive then s
  else
    let base := s.baseQuestions
    let questions := buildRunQuestions base count shuffle rand
    let s := { s with baseQuestions := base
                      baseQuestionCount := base.length
                      questions := questions
                      runSettingsCount := questions.length
                      runSettingsShuffle := shuffle
                      runSettingsConfirmed := true
                      currentQuestionIndex := -1 }
    let s := clearQuestionState s
    { s with lobbyTimer := false, lobbyExpiresAt := none }

/-- The part of the `player:answer` handler that runs before
`await evaluateAnswer` (server.js 1079–1092): phase and idempotency guards,
then the `lastSeen` touch.  Returns the updated session and the player id,
or `none` when the submission is rejected. -/
def answerStart (s : Session) (sid : Nat) (now : ℤ) : Option (Session × Nat) :=
  if ¬s.questionActive then none
  else
    match findPlayerBySocket s sid with
    | none => none
    | some p =>
      if s.answers.contains p.id then none
      else some (updatePlayer s p.id (fun q => { q with lastSeen := now }), p.id)

/-- The continuation of the `player:answer` handler after the awaited
evaluation resolves (server.js 1099–1123): add the earned score, mark the
participant answered, and fast-forward when every connected participant has
answered. -/
def answerCommit (s : Session) (pid : Nat) (earned : ℤ) : Session :=
  let s := updatePlayer s pid (fun q => { q with score := q.score + earned })
  let s := { s with answers := if s.answers.contains pid then s.answers
                               else s.answers ++ [pid] }
  let connectedIds := (s.players.filter (fun p => p.isConnected)).map (fun p => p.id)
  if 0 < connectedIds.length && connectedIds.all (fun i => s.answers.contains i) then
    endQuestion { s with questionTimer := false }
  else s

/-- The whole `player:answer` handler, run atomically (no other event
interleaved with the awaited evaluation, whose outcome is `earned`). -/
def handleAnswer (s : Session) (sid : Nat) (earned : ℤ) (now : ℤ) : Session :=
  match answerStart s sid now with
  | none => s
  | some (s₁, pid) => answerCommit s₁ pid earned

/-- A pending question timer fires: the scheduled callback is
`endQuestion` (server.js 791). -/
def questionTimerFire (s : Session) : Session :=
  if s.questionTimer then endQuestion s else s

/-- A pending leaderboard timer fires (server.js 739–746). -/
def leaderboardTimerFire (now : ℤ) (s : Session) : Session :=
  match s.leaderboardTimer with
  | none => s
  | some .next => startQuestion now s
  | some .finish => pruneDisconnectedPlayers s

/-- A pending lobby countdown fires: the callback is `startQuestion`
(server.js 972). -/
def lobbyTimerFire (now : ℤ) (s : Session) : Session :=
  if s.lobbyTimer then startQuestion now s else s

/-- The `player:join` handler (server.js 906–984), restricted to this
session: rebind an existing identity or append a fresh entry, then start
the lobby countdown for the first connected participant of an unclaimed,
not-yet-started session. -/
def playerJoin (pid sid : Nat) (name : String) (now : ℤ) (s : Session) : Session :=
  if name = "" then s
  else
    let s :=
      match s.players.find? (fun p => p.id == pid) with
      | some _ =>
        updatePlayer s pid (fun p =>
          { p with socketId := some sid
                   isConnected := true
                   disconnectedAt := none
                   lastSeen := now
                   disconnectTimer := false
                   name := if p.name = "" then name else p.name })
      | none =>
        { s with players := s.players ++ [⟨pid, some sid, name, 0, true, now, none, false⟩] }
    if s.hostId = none ∧ countConnectedPlayers s = 1 ∧
        s.currentQuestionIndex = -1 ∧ ¬s.lobbyTimer then
      { s with lobbyTimer := true, lobbyExpiresAt := some (now + 15000) }
    else s

/-- The `disconnect` handler branch for the bound host
(server.js 1159–1171). -/
def hostDisconnect (s : Session) : Session :=
  let s := clearQuestionState s
  let s := { s with lobbyTimer := false, lobbyExpiresAt := none }
  pruneDisconnectedPlayers { s with hostId := none }

/-- The `disconnect` handler branch for a participant socket
(server.js 1173–1194). -/
def playerDisconnect (sid : Nat) (now : ℤ) (s : Session) : Session :=
  match findPlayerBySocket s sid with
  | none => s
  | some p =>
    updatePlayer s p.id (fun q =>
      { q with isConnected := false
               disconnectedAt := some now
               lastSeen := now
               socketId := none
               disconnectTimer := true })

/-- A pending disconnect-grace timer fires (server.js 1183–1192): a
participant who reconnected keeps their entry, otherwise they are removed
from the roster. -/
def graceTimerFire (pid : Nat) (s : Session) : Session :=
  match s.players.find? (fun p => p.id == pid) with
  | none => s
  | some p =>
    if p.disconnectTimer then
      if p.isConnected then
        updatePlayer s pid (fun q => { q with disconnectTimer := false })
      else
        { s with players := s.players.filter (fun q => ¬q.id = pid) }
    else s

/-- The engine operations of a session's event loop. -/
inductive Op where
  | startQ (now : ℤ)
  | endQ
  | qTimerFire
  | lbTimerFire (now : ℤ)
  | lobbyFire (now : ℤ)
  | answer (sid : Nat) (earned : ℤ) (now : ℤ)
  | configure (count : Option ℤ) (shuffle : Bool) (rand : List Nat)
  | join (pid sid : Nat) (name : String) (now : ℤ)
  | hostDisc
  | playerDisc (sid : Nat) (now : ℤ)
  | graceFire (pid : Nat)

/-- Dispatch of one event-loop step. -/
def applyOp : Op → Session → Session
  | .startQ now, s => startQuestion now s
  | .endQ, s => endQuestion s
  | .qTimerFire, s => questionTimerFire s
  | .lbTimerFire now, s => leaderboardTimerFire now s
  | .lobbyFire now, s => lobbyTimerFire now s
  | .answer sid earned now, s => handleAnswer s sid earned now
  | .configure count shuffle rand, s => configureRun count shuffle rand s
  | .join pid sid name now, s => playerJoin pid sid name now s
  | .hostDisc, s => hostDisconnect s
  | .playerDisc sid now, s => playerDisconnect sid now s
  | .graceFire pid, s => graceTimerFire pid s

/-- A whole trace of event-loop steps. -/
def applyOps (ops : List Op) (s : Session) : Session :=
  ops.foldl (fun s op => applyOp op s) s

/-- The index/run-list invariant of a live session; it holds of
`createSessionFromTemplate` for any non-empty template. -/
def SessionInv (s : Session) : Prop :=
  -1 ≤ s.currentQuestionIndex ∧
  s.currentQuestionIndex < (s.questions.length : ℤ) ∧
  1 ≤ s.baseQuestions.length ∧
  1 ≤ s.questions.length

/-! ## Concrete fixtures used by witnesses and counterexamples -/

/-- No LLM provider configured (`isLlmJudgeConfigured() = false`). -/
def judgeOff : LlmJudge := ⟨false, 7/10, none⟩

/-- A provider is configured but every call fails
(`judgeAnswerWithLlm` rejects). -/
def judgeFailing : LlmJudge := ⟨true, 7/10, none⟩

/-- The dictionary endpoint is unreachable. -/
def oracleDown : SynOracle := ⟨fun _ => none⟩

def qCafeAuLait : Question := ⟨"Milky coffee?", "cafe au lait", [], [], none⟩

def qCapital : Question := ⟨"Capital of France?", "paris", [], [], none⟩

/-- Options of an offline submission (no timing, no speed bonus). -/
def optsPlain : EvalOptions := ⟨none, none, false⟩

def qLetterA : Question := ⟨"?", "a", [], [], none⟩

/-- The result of a full-speed correct answer to `qLetterA`. -/
def c1Result : EvalResult := ⟨true, false, 1500, "a", "a", "rules", ""⟩

def cfgNormal : RuleConfig := getRuleMatchingConfig .normal none

def cfgLenient : RuleConfig := getRuleMatchingConfig .lenient none

/-- A two-question session whose only participant (player 1, socket 5) is
connected, with question 0 active and its timer pending. -/
def c7Session : Session :=
  { createSessionFromTemplate [⟨"p", "a", [], [], none⟩, ⟨"p", "a", [], [], none⟩] 20 (some 9) with
    players := [⟨1, some 5, "ann", 0, true, 0, none, false⟩]
    currentQuestionIndex := 0
    questionStart := some 100
    questionActive := true
    questionTimer := true }

/-- The session state `answerStart` leaves while the first submission's
evaluation is in flight. -/
def c7Mid : Session := updatePlayer c7Session 1 (fun q => { q with lastSeen := 105 })

/-! # Theorems -/

/-! ## Scoring (C1) -/

theorem jround_one_mul_500 : jround ((1 : ℚ) * 500) = 500 := by
  unfold jround
  rw [Int.floor_eq_iff]
  norm_num

theorem jround_zero : jround (0 : ℚ) = 0 := by
  unfold jround
  rw [Int.floor_eq_iff]
  norm_num

/-- Every successful `evaluateAnswer` result carries the score computed from
its own verdict flags and the speed bonus of its options. -/
theorem evaluateAnswer_ok_earned (j : LlmJudge) (o : SynOracle) (c : SynCache)
    (q : Question) (sub : String) (opts : EvalOptions) (cfg : RuleConfig)
    (res : EvalResult)
    (h : (evaluateAnswer j o c q sub opts cfg).1 = .ok res) :
    res.earned =
      if res.isCorrect then
        1000 + calculateSpeedBonus opts.durationMs opts.timeRemainingMs opts.includeSpeedBonus
      else if res.isPartial then
        jround (((1000 + calculateSpeedBonus opts.durationMs opts.timeRemainingMs
          opts.includeSpeedBonus : ℤ) : ℚ) / 2)
      else 0 := by
  unfold evaluateAnswer at h
  rcases hd : decideVerdict j o c q sub cfg with ⟨ev, c2⟩
  rw [hd] at h
  cases ev with
  | error e => simp at h
  | ok v =>
    simp only [Except.ok.injEq] at h
    subst h
    rfl

/-- With the speed bonus enabled and a valid positive duration, the bonus is
`round(remaining/duration * 500)`. -/
theorem calculateSpeedBonus_valid (d rem : ℚ) (hd : 0 < d) (hr : 0 ≤ rem) :
    calculateSpeedBonus (some d) (some rem) true = jround (rem / d * 500) := by
  unfold calculateSpeedBonus
  simp [hd, hr, max_eq_right hr]

/-- C1: with the speed bonus enabled and a positive duration, a verdict
produced by `evaluateAnswer` earns: base + round(fraction·500) when
`Correct` — in particular base + bonusCap = 1500 with full time remaining
and base = 1000 with none — exactly half of the `Correct` amount for the
same timing, rounded once at the end, when `Partial`, and 0 when
`Wrong`. -/
theorem speed_scoring_profile (j : LlmJudge) (o : SynOracle) (c : SynCache)
    (q : Question) (sub : String) (cfg : RuleConfig) (d rem : ℚ)
    (res : EvalResult) (hd : 0 < d) (hr : 0 ≤ rem)
    (h : (evaluateAnswer j o c q sub ⟨some d, some rem, true⟩ cfg).1 = .ok res) :
    (res.isCorrect = true →
        res.earned = 1000 + jround (rem / d * 500) ∧
        (rem = d → res.earned = 1500) ∧
        (rem = 0 → res.earned = 1000)) ∧
    (res.isCorrect = false → res.isPartial = true →
        res.earned = jround (((1000 + jround (rem / d * 500) : ℤ) : ℚ) / 2)) ∧
    (res.isCorrect = false → res.isPartial = false → res.earned = 0) := by
  have hb := calculateSpeedBonus_valid d rem hd hr
  have he := evaluateAnswer_ok_earned j o c q sub ⟨some d, some rem, true⟩ cfg res h
  simp only at he
  rw [hb] at he
  refine ⟨fun hc => ?_, fun hc hp => ?_, fun hc hp => ?_⟩
  · rw [hc] at he
    simp only [if_true] at he
    refine ⟨he, fun hrd => ?_, fun hr0 => ?_⟩
    · subst hrd
      rw [div_self (ne_of_gt hd)] at he
      rw [jround_one_mul_500] at he
      exact he
    · subst hr0
      rw [zero_div, zero_mul] at he
      rw [jround_zero] at he
      simpa using he
  · rw [hc, hp] at he
    simpa using he
  · rw [hc, hp] at he
    simpa using he

/-- Witness for C1: a correct answer with full time remaining on a 20 s
question earns exactly 1500. -/
theorem speed_scoring_profile_witness :
    (evaluateAnswer judgeOff oracleDown [] qLetterA "a"
      ⟨some 20000, some 20000, true⟩ cfgNormal).1 = .ok c1Result ∧
    c1Result.earned = 1000 + jround ((20000 : ℚ) / 20000 * 500) := by
  have hv : decideVerdict judgeOff oracleDown [] qLetterA "a" cfgNormal =
      (.ok ⟨true, false, "rules", ""⟩, [("a", [])]) := by decide
  have hb : calculateSpeedBonus (some (20000 : ℚ)) (some 20000) true = 500 := by
    rw [calculateSpeedBonus_valid 20000 20000 (by norm_num) (by norm_num)]
    rw [div_self (by norm_num : (20000 : ℚ) ≠ 0)]
    exact jround_one_mul_500
  have h : (evaluateAnswer judgeOff oracleDown [] qLetterA "a"
      ⟨some 20000, some 20000, true⟩ cfgNormal).1 = .ok c1Result := by
    unfold evaluateAnswer
    rw [hv]
    simp only [c1Result, qLetterA, hb]
    rfl
  exact ⟨h, ((speed_scoring_profile judgeOff oracleDown [] qLetterA "a" cfgNormal
    20000 20000 c1Result (by norm_num) (by norm_num) h).1 rfl).1⟩

/-! ## At most one scored submission per participant and question (C3) -/

/-- C3: once a participant is in the answered set of the current question,
a further `player:answer` event from them is rejected before any mutation:
the session — the participant's cumulative score included — is unchanged. -/
theorem answered_resubmission_is_noop (s : Session) (sid : Nat) (p : Player)
    (earned now : ℤ)
    (hfind : findPlayerBySocket s sid = some p)
    (hans : s.answers.contains p.id = true) :
    handleAnswer s sid earned now = s := by
  unfold handleAnswer answerStart
  by_cases hq : s.questionActive
  · have hm : p.id ∈ s.answers := by simpa using hans
    simp [hq, hfind, hm]
  · simp [hq]

/-- Witness for C3: the answered participant of a concrete session
resubmits and nothing changes. -/
theorem answered_resubmission_is_noop_witness :
    findPlayerBySocket { c7Session with answers := [1] } 5 =
      some ⟨1, some 5, "ann", 0, true, 0, none, false⟩ ∧
    ({ c7Session with answers := [1] } : Session).answers.contains 1 = true ∧
    handleAnswer { c7Session with answers := [1] } 5 777 200 =
      { c7Session with answers := [1] } :=
  ⟨by decide, by decide,
    answered_resubmission_is_noop { c7Session with answers := [1] } 5
      ⟨1, some 5, "ann", 0, true, 0, none, false⟩ 777 200 (by decide) (by decide)⟩

/-! ## Normalization round-trip (C9) -/

/-- C9: `"  Café-Au-Lait!! "` and `"cafe au lait"` normalise to the same
string, and the matching ladder marks the submission `Correct` under both
the normal and the lenient profile. -/
theorem cafe_au_lait_normalises_and_matches :
    normaliseAnswer "  Café-Au-Lait!! " = normaliseAnswer "cafe au lait" ∧
    (evaluateAnswer judgeOff oracleDown [] qCafeAuLait "  Café-Au-Lait!! "
        optsPlain cfgNormal).1.toOption.map (fun r => (r.isCorrect, r.isPartial)) =
      some (true, false) ∧
    (evaluateAnswer judgeOff oracleDown [] qCafeAuLait "  Café-Au-Lait!! "
        optsPlain cfgLenient).1.toOption.map (fun r => (r.isCorrect, r.isPartial)) =
      some (true, false) :=
  ⟨by decide, by decide, by decide⟩

/-! ## In-flight resubmission is scored twice (C7) -/

/-- C7 (counterexample to the claimed in-flight idempotency): while the sole
participant's first submission awaits its evaluation (state `c7Mid`), a
second identical submission passes the `answers.has` guard — the answered
mark is only added after the await — so it is evaluated and scored, and the
first submission's continuation scores again: the participant ends with
double the single-submission score. -/
theorem inflight_resubmission_double_scores :
    answerStart c7Session 5 105 = some (c7Mid, 1) ∧
    (handleAnswer c7Mid 5 1375 106).players.map (fun p => p.score) = [1375] ∧
    (answerCommit (handleAnswer c7Mid 5 1375 106) 1 1375).players.map
      (fun p => p.score) = [2750] ∧
    (handleAnswer c7Session 5 1375 105).players.map (fun p => p.score) = [1375] :=
  ⟨by decide, by decide, by decide, by decide⟩

/-! ## Judge failure propagates out of `evaluateAnswer` (C5) -/

theorem isCloseMatch_london_paris : isCloseMatch "london" "paris" cfgNormal = false := by
  have hlev : levenshtein "london".data "paris".data = 6 := by decide
  simp only [isCloseMatch, hlev]
  rw [if_neg (by decide : ¬(("london".length ⊔ "paris".length) == 0) = true)]
  norm_num [cfgNormal, getRuleMatchingConfig]
  refine ⟨?_, fun _ => ⟨fun _ => by decide, fun _ => by decide⟩⟩
  rw [if_neg (by decide : ¬Strictness.normal = Strictness.lenient)]
  norm_num [show "london".length = 6 from rfl, show "paris".length = 5 from rfl]

theorem rulesLadder_london_paris :
    rulesLadder oracleDown [] ["paris"] "london" ["paris"] [] cfgNormal =
      ((false, false), [("paris", [])]) := by
  have hsyn : collectSynonyms oracleDown [] ["paris"] = ([], [("paris", [])]) := by decide
  have hA : cfgNormal.allowSynonyms = true := by decide
  have hB : cfgNormal.allowCompactMatch = true := by decide
  have hC : cfgNormal.allowCloseMatch = true := by decide
  simp only [rulesLadder, hA, hB, hC, hsyn, if_true, List.any_cons, List.any_nil,
    isCloseMatch_london_paris]
  decide

theorem decideVerdict_london_judge_failing :
    decideVerdict judgeFailing oracleDown [] qCapital "london" cfgNormal =
      (.error (), [("paris", [])]) := by
  have hn1 : normaliseAnswer "london" = "london" := by decide
  have hn2 : normaliseAnswer "paris" = "paris" := by decide
  have hP : cfgNormal.llmPrimaryEnabled = false := by decide
  have hF : cfgNormal.allowLLMFallback = true := by decide
  have hfil : (["paris"].filter (fun s => decide (s ≠ ""))) = ["paris"] := by decide
  simp only [decideVerdict, qCapital, hP, hF, hfil, List.map_cons, List.map_nil, hn1, hn2]
  simp [rulesLadder_london_paris, judgeFailing]

theorem decideVerdict_london_judge_off :
    decideVerdict judgeOff oracleDown [] qCapital "london" cfgNormal =
      (.ok ⟨false, false, "rules", ""⟩, [("paris", [])]) := by
  have hn1 : normaliseAnswer "london" = "london" := by decide
  have hn2 : normaliseAnswer "paris" = "paris" := by decide
  have hP : cfgNormal.llmPrimaryEnabled = false := by decide
  have hF : cfgNormal.allowLLMFallback = true := by decide
  have hfil : (["paris"].filter (fun s => decide (s ≠ ""))) = ["paris"] := by decide
  simp only [decideVerdict, qCapital, hP, hF, hfil, List.map_cons, List.map_nil, hn1, hn2]
  simp [rulesLadder_london_paris, judgeOff]

/-- C5 (code bug): when the rule ladder yields `Wrong` and the configured
semantic judge fails (`judgeAnswerWithLlm` rejects — timeout, HTTP error,
malformed JSON), `evaluateAnswer` does not return the rule-based verdict:
the rejection propagates out of `evaluateAnswer`, because neither
`await judgeAnswerWithLlm` call site is wrapped in try/catch.  With the
judge unreachable the very same inputs would have produced the `Wrong`
verdict shown in the second conjunct. -/
theorem judge_failure_rejects_evaluation :
    (evaluateAnswer judgeFailing oracleDown [] qCapital "london" optsPlain
      cfgNormal).1 = .error () ∧
    (evaluateAnswer judgeOff oracleDown [] qCapital "london" optsPlain
      cfgNormal).1 = .ok ⟨false, false, 0, "paris", "london", "rules", ""⟩ := by
  constructor
  · unfold evaluateAnswer
    rw [decideVerdict_london_judge_failing]
  · unfold evaluateAnswer
    rw [decideVerdict_london_judge_off]
    rfl

/-! ## Fast-forward when every connected participant has answered (C2) -/

/-- A point update that changes neither `id` nor `isConnected` leaves the
connected-participant id view unchanged. -/
theorem players_filter_ids_map (pid : Nat) (f : Player → Player)
    (hid : ∀ p, (f p).id = p.id) (hc : ∀ p, (f p).isConnected = p.isConnected) :
    ∀ l : List Player,
      ((l.map (fun p => if p.id == pid then f p else p)).filter
        (fun p => p.isConnected)).map (fun p => p.id) =
      (l.filter (fun p => p.isConnected)).map (fun p => p.id) := by
  intro l
  induction l with
  | nil => rfl
  | cons a t ih =>
    by_cases h : (a.id == pid) = true
    · simp only [List.map_cons, h, if_true, List.filter_cons, hc a]
      by_cases hca : a.isConnected = true
      · simp only [hca, if_true, List.map_cons, hid a]
        rw [ih]
      · simp only [Bool.not_eq_true] at hca
        simp only [hca, Bool.false_eq_true, if_false]
        rw [ih]
    · simp only [Bool.not_eq_true] at h
      simp only [List.map_cons, h, Bool.false_eq_true, if_false, List.filter_cons]
      by_cases hca : a.isConnected = true
      · simp only [hca, if_true, List.map_cons]
        rw [ih]
      · simp only [Bool.not_eq_true] at hca
        simp only [hca, Bool.false_eq_true, if_false]
        rw [ih]

/-- C2: an accepted submission after which every currently connected
participant (and only the connected ones are counted) is in the answered
set cancels the pending question timer and ends the question within the
same `player:answer` handling step — the scoring pause is scheduled — and a
later firing of the superseded timer, or a stray `endQuestion`, is a
no-op. -/
theorem all_connected_answered_fast_forward (s : Session) (sid : Nat)
    (p : Player) (earned now : ℤ)
    (hact : s.questionActive = true)
    (hfind : findPlayerBySocket s sid = some p)
    (hnew : s.answers.contains p.id = false)
    (hconn : s.players.filter (fun q => q.isConnected) ≠ [])
    (hall : ∀ q ∈ s.players, q.isConnected = true → q.id = p.id ∨ q.id ∈ s.answers) :
    (handleAnswer s sid earned now).questionActive = false ∧
    (handleAnswer s sid earned now).questionTimer = false ∧
    (handleAnswer s sid earned now).leaderboardTimer.isSome = true ∧
    questionTimerFire (handleAnswer s sid earned now) = handleAnswer s sid earned now ∧
    endQuestion (handleAnswer s sid earned now) = handleAnswer s sid earned now := by
  have hnotmem : ¬(p.id ∈ s.answers) := by simpa using hnew
  have ha : handleAnswer s sid earned now =
      answerCommit (updatePlayer s p.id (fun q => { q with lastSeen := now })) p.id earned := by
    unfold handleAnswer answerStart
    simp [hact, hfind, hnotmem]
  rw [ha]
  unfold answerCommit
  simp only [updatePlayer, hnew, Bool.false_eq_true, if_false]
  rw [players_filter_ids_map p.id (fun q => { q with score := q.score + earned })
    (fun _ => rfl) (fun _ => rfl)]
  rw [players_filter_ids_map p.id (fun q => { q with lastSeen := now })
    (fun _ => rfl) (fun _ => rfl)]
  have hlen : 0 < ((s.players.filter (fun q => q.isConnected)).map (fun q => q.id)).length := by
    rw [List.length_map]
    exact List.length_pos.mpr hconn
  have hallb : ((s.players.filter (fun q => q.isConnected)).map (fun q => q.id)).all
      (fun i => (s.answers ++ [p.id]).contains i) = true := by
    rw [List.all_eq_true]
    intro i hi
    rw [List.mem_map] at hi
    obtain ⟨q, hqf, rfl⟩ := hi
    rw [List.mem_filter] at hqf
    obtain ⟨hqmem, hqconn⟩ := hqf
    rcases hall q hqmem hqconn with h | h
    · simp [h]
    · simp [h]
  rw [if_pos (by rw [Bool.and_eq_true]; exact ⟨decide_eq_true hlen, hallb⟩)]
  unfold endQuestion
  rw [if_neg (by simpa using hact)]
  refine ⟨rfl, rfl, rfl, ?_, ?_⟩
  · unfold questionTimerFire
    rfl
  · rw [if_pos (by simp [scheduleLeaderboard, clearQuestionState])]

/-- Witness for C2: in the concrete one-participant session, the sole
connected participant's submission ends the question at once and the
superseded timer firing does nothing. -/
theorem all_connected_answered_fast_forward_witness :
    c7Session.questionActive = true ∧
    findPlayerBySocket c7Session 5 = some ⟨1, some 5, "ann", 0, true, 0, none, false⟩ ∧
    c7Session.answers.contains 1 = false ∧
    c7Session.players.filter (fun q => q.isConnected) ≠ [] ∧
    (∀ q ∈ c7Session.players, q.isConnected = true → q.id = 1 ∨ q.id ∈ c7Session.answers) ∧
    ((handleAnswer c7Session 5 1375 105).questionActive = false ∧
     (handleAnswer c7Session 5 1375 105).questionTimer = false ∧
     (handleAnswer c7Session 5 1375 105).leaderboardTimer.isSome = true ∧
     questionTimerFire (handleAnswer c7Session 5 1375 105) = handleAnswer c7Session 5 1375 105 ∧
     endQuestion (handleAnswer c7Session 5 1375 105) = handleAnswer c7Session 5 1375 105) :=
  ⟨by decide, by decide, by decide, by decide, by decide,
    all_connected_answered_fast_forward c7Session 5
      ⟨1, some 5, "ann", 0, true, 0, none, false⟩ 1375 105
      (by decide) (by decide) (by decide) (by decide) (by decide)⟩

/-! ## Run configuration rebuilds from the template (C4) -/

theorem swapAt_length {α : Type} (l : List α) (i j : Nat) :
    (swapAt l i j).length = l.length := by
  unfold swapAt
  split
  · simp [List.length_set]
  · rfl

theorem fisherYatesGo_length {α : Type} :
    ∀ (i : Nat) (rand : List Nat) (l : List α),
      (fisherYatesGo l i rand).length = l.length := by
  intro i
  induction i with
  | zero => intro rand l; rfl
  | succ n ih =>
    intro rand l
    show (fisherYatesGo (swapAt l (n+1) (rand.headD 0 % (n+2))) n rand.tail).length = _
    rw [ih, swapAt_length]

theorem shuffleInPlace_length {α : Type} (rand : List Nat) (l : List α) :
    (shuffleInPlace rand l).length = l.length :=
  fisherYatesGo_length _ _ _

theorem buildRunQuestions_length_bounds (B : List Question) (c : Option ℤ)
    (sh : Bool) (rand : List Nat) (hb : 1 ≤ B.length) :
    1 ≤ (buildRunQuestions B c sh rand).length ∧
    (buildRunQuestions B c sh rand).length ≤ B.length := by
  unfold buildRunQuestions
  have hlen : (if sh = true then shuffleInPlace rand B else B).length = B.length := by
    cases sh <;> simp [shuffleInPlace_length]
  simp only [List.length_take, hlen]
  rcases c with _ | k
  · simp only
    omega
  · simp only
    split_ifs <;> omega

theorem buildRunQuestions_length_exact (B : List Question) (k : ℤ) (sh : Bool)
    (rand : List Nat) (h1 : 1 ≤ k) (h2 : k ≤ (B.length : ℤ)) :
    ((buildRunQuestions B (some k) sh rand).length : ℤ) = k := by
  unfold buildRunQuestions
  have hlen : (if sh = true then shuffleInPlace rand B else B).length = B.length := by
    cases sh <;> simp [shuffleInPlace_length]
  simp only [List.length_take, hlen]
  split_ifs <;> omega

/-- C4: in the lobby, every `host:configureRun` derives the run list from the
session's immutable base/template list, never from the run list a previous
call produced — two successive calls never compound truncation — and the run
length is always forced into `[1, templateQuestionCount]`, matching the
requested count exactly whenever that count lies in the range. -/
theorem configureRun_rederives_from_template (s : Session) (c1 c2 : Option ℤ)
    (sh1 sh2 : Bool) (r1 r2 : List Nat)
    (hidx : s.currentQuestionIndex = -1) (hact : s.questionActive = false)
    (hb : 1 ≤ s.baseQuestions.length) :
    (configureRun c2 sh2 r2 (configureRun c1 sh1 r1 s)).questions =
      buildRunQuestions s.baseQuestions c2 sh2 r2 ∧
    (configureRun c2 sh2 r2 (configureRun c1 sh1 r1 s)).questions =
      (configureRun c2 sh2 r2 s).questions ∧
    (1 ≤ (configureRun c2 sh2 r2 (configureRun c1 sh1 r1 s)).questions.length ∧
      (configureRun c2 sh2 r2 (configureRun c1 sh1 r1 s)).questions.length ≤
        s.baseQuestions.length) ∧
    (∀ k : ℤ, 1 ≤ k → k ≤ (s.baseQuestions.length : ℤ) →
      ((buildRunQuestions s.baseQuestions (some k) sh2 r2).length : ℤ) = k) := by
  have lobby : ∀ (t : Session) (c : Option ℤ) (sh : Bool) (r : List Nat),
      t.currentQuestionIndex = -1 → t.questionActive = false →
      (configureRun c sh r t).questions = buildRunQuestions t.baseQuestions c sh r ∧
      (configureRun c sh r t).currentQuestionIndex = -1 ∧
      (configureRun c sh r t).questionActive = false ∧
      (configureRun c sh r t).baseQuestions = t.baseQuestions := by
    intro t c sh r ht ha
    unfold configureRun clearQuestionState
    rw [if_neg (by simp only [not_or, not_not, Bool.not_eq_true]; exact ⟨ht, ha⟩)]
    exact ⟨rfl, rfl, rfl, rfl⟩
  obtain ⟨l1q, l1i, l1a, l1b⟩ := lobby s c1 sh1 r1 hidx hact
  obtain ⟨l2q, -, -, -⟩ := lobby (configureRun c1 sh1 r1 s) c2 sh2 r2 l1i l1a
  have hq : (configureRun c2 sh2 r2 (configureRun c1 sh1 r1 s)).questions =
      buildRunQuestions s.baseQuestions c2 sh2 r2 := by rw [l2q, l1b]
  have hq' : (configureRun c2 sh2 r2 s).questions =
      buildRunQuestions s.baseQuestions c2 sh2 r2 :=
    (lobby s c2 sh2 r2 hidx hact).1
  refine ⟨hq, by rw [hq, hq'], ?_, ?_⟩
  · rw [hq]
    exact buildRunQuestions_length_bounds s.baseQuestions c2 sh2 r2 hb
  · intro k h1 h2
    exact buildRunQuestions_length_exact s.baseQuestions k sh2 r2 h1 h2

/-- Witness for C4: two lobby calls with counts 2 then 4 on a 5-question
template yield 4 questions — the truncation of the first call does not
compound. -/
theorem configureRun_rederives_from_template_witness :
    (createSessionFromTemplate [⟨"1","a",[],[],none⟩, ⟨"2","b",[],[],none⟩,
        ⟨"3","c",[],[],none⟩, ⟨"4","d",[],[],none⟩, ⟨"5","e",[],[],none⟩] 20
        (some 9)).currentQuestionIndex = -1 ∧
    (configureRun (some 4) false []
      (configureRun (some 2) false []
        (createSessionFromTemplate [⟨"1","a",[],[],none⟩, ⟨"2","b",[],[],none⟩,
          ⟨"3","c",[],[],none⟩, ⟨"4","d",[],[],none⟩, ⟨"5","e",[],[],none⟩] 20
          (some 9)))).questions =
      buildRunQuestions (createSessionFromTemplate [⟨"1","a",[],[],none⟩,
        ⟨"2","b",[],[],none⟩, ⟨"3","c",[],[],none⟩, ⟨"4","d",[],[],none⟩,
        ⟨"5","e",[],[],none⟩] 20 (some 9)).baseQuestions (some 4) false [] :=
  ⟨by decide,
    (configureRun_rederives_from_template _ (some 2) (some 4) false false [] []
      (by decide) (by decide) (by decide)).1⟩

/-! ## The question index is monotone and bounded (C8) -/

/-- The session fields the index invariant is about. -/
def idxView (s : Session) : ℤ × List Question × List Question :=
  (s.currentQuestionIndex, s.questions, s.baseQuestions)

theorem endQuestion_idxView (s : Session) : idxView (endQuestion s) = idxView s := by
  unfold endQuestion scheduleLeaderboard clearQuestionState
  split <;> rfl

theorem questionTimerFire_idxView (s : Session) :
    idxView (questionTimerFire s) = idxView s := by
  unfold questionTimerFire
  split
  · exact endQuestion_idxView s
  · rfl

theorem answerCommit_idxView (s : Session) (pid : Nat) (e : ℤ) :
    idxView (answerCommit s pid e) = idxView s := by
  simp only [answerCommit, updatePlayer]
  split <;> split
  all_goals try rw [endQuestion_idxView]
  all_goals rfl

theorem handleAnswer_idxView (s : Session) (sid : Nat) (e now : ℤ) :
    idxView (handleAnswer s sid e now) = idxView s := by
  unfold handleAnswer answerStart
  by_cases hq : s.questionActive = true
  · rcases hf : findPlayerBySocket s sid with _ | p
    · simp [hq, hf]
    · by_cases hans : p.id ∈ s.answers
      · simp [hq, hf, hans]
      · simp only [hq, hf]
        rw [if_neg (show ¬(s.answers.contains p.id = true) by simpa using hans)]
        show idxView (answerCommit (updatePlayer s p.id
          fun q => { q with lastSeen := now }) p.id e) = idxView s
        rw [answerCommit_idxView]
        rfl
  · simp only [Bool.not_eq_true] at hq
    simp [hq]

theorem hostDisconnect_idxView (s : Session) : idxView (hostDisconnect s) = idxView s := rfl

theorem playerDisconnect_idxView (sid : Nat) (now : ℤ) (s : Session) :
    idxView (playerDisconnect sid now s) = idxView s := by
  unfold playerDisconnect updatePlayer
  split <;> rfl

theorem graceTimerFire_idxView (pid : Nat) (s : Session) :
    idxView (graceTimerFire pid s) = idxView s := by
  unfold graceTimerFire updatePlayer
  split
  · rfl
  · split
    · split <;> rfl
    · rfl

theorem playerJoin_idxView (pid sid : Nat) (name : String) (now : ℤ) (s : Session) :
    idxView (playerJoin pid sid name now s) = idxView s := by
  simp only [playerJoin, updatePlayer, countConnectedPlayers]
  split
  · rfl
  · split <;> split <;> rfl

theorem startQuestion_cases (now : ℤ) (s : Session) :
    (startQuestion now s).questions = s.questions ∧
    (startQuestion now s).baseQuestions = s.baseQuestions ∧
    ((startQuestion now s).currentQuestionIndex = s.currentQuestionIndex ∨
      ((startQuestion now s).currentQuestionIndex = s.currentQuestionIndex + 1 ∧
        s.currentQuestionIndex + 1 < (s.questions.length : ℤ))) := by
  simp only [startQuestion]
  split_ifs with h1 h2 h3
  · exact ⟨rfl, rfl, .inl rfl⟩
  · exact ⟨rfl, rfl, .inl rfl⟩
  · exact ⟨rfl, rfl, .inl rfl⟩
  · exact ⟨rfl, rfl, .inr ⟨rfl, by omega⟩⟩

theorem lobbyTimerFire_cases (now : ℤ) (s : Session) :
    (lobbyTimerFire now s).questions = s.questions ∧
    (lobbyTimerFire now s).baseQuestions = s.baseQuestions ∧
    ((lobbyTimerFire now s).currentQuestionIndex = s.currentQuestionIndex ∨
      ((lobbyTimerFire now s).currentQuestionIndex = s.currentQuestionIndex + 1 ∧
        s.currentQuestionIndex + 1 < (s.questions.length : ℤ))) := by
  unfold lobbyTimerFire
  split
  · exact startQuestion_cases now s
  · exact ⟨rfl, rfl, .inl rfl⟩

theorem leaderboardTimerFire_cases (now : ℤ) (s : Session) :
    (leaderboardTimerFire now s).questions = s.questions ∧
    (leaderboardTimerFire now s).baseQuestions = s.baseQuestions ∧
    ((leaderboardTimerFire now s).currentQuestionIndex = s.currentQuestionIndex ∨
      ((leaderboardTimerFire now s).currentQuestionIndex = s.currentQuestionIndex + 1 ∧
        s.currentQuestionIndex + 1 < (s.questions.length : ℤ))) := by
  unfold leaderboardTimerFire
  split
  · exact ⟨rfl, rfl, .inl rfl⟩
  · exact startQuestion_cases now s
  · exact ⟨rfl, rfl, .inl rfl⟩

theorem configureRun_cases (c : Option ℤ) (sh : Bool) (r : List Nat) (s : Session) :
    (configureRun c sh r s).baseQuestions = s.baseQuestions ∧
    (configureRun c sh r s = s ∨
      ((configureRun c sh r s).currentQuestionIndex = -1 ∧
        s.currentQuestionIndex = -1 ∧
        (configureRun c sh r s).questions = buildRunQuestions s.baseQuestions c sh r)) := by
  unfold configureRun clearQuestionState
  split_ifs with h
  · exact ⟨rfl, .inl rfl⟩
  · simp only [not_or, not_not, Bool.not_eq_true] at h
    exact ⟨rfl, .inr ⟨rfl, h.1, rfl⟩⟩

theorem inv_of_idxView_eq {s t : Session} (h : idxView t = idxView s)
    (hs : SessionInv s) :
    SessionInv t ∧ s.currentQuestionIndex ≤ t.currentQuestionIndex := by
  obtain ⟨e1, e2, e3⟩ :
      t.currentQuestionIndex = s.currentQuestionIndex ∧
      t.questions = s.questions ∧ t.baseQuestions = s.baseQuestions := by
    simpa [idxView, Prod.ext_iff] using h
  unfold SessionInv at hs ⊢
  rw [e1, e2, e3]
  exact ⟨hs, le_refl _⟩

theorem inv_of_start_cases {s t : Session}
    (h : t.questions = s.questions ∧ t.baseQuestions = s.baseQuestions ∧
      (t.currentQuestionIndex = s.currentQuestionIndex ∨
        (t.currentQuestionIndex = s.currentQuestionIndex + 1 ∧
          s.currentQuestionIndex + 1 < (s.questions.length : ℤ))))
    (hs : SessionInv s) :
    SessionInv t ∧ s.currentQuestionIndex ≤ t.currentQuestionIndex := by
  obtain ⟨hq, hb, hcase⟩ := h
  obtain ⟨h1, h2, h3, h4⟩ := hs
  unfold SessionInv
  rw [hq, hb]
  rcases hcase with he | ⟨he, hlt⟩ <;> rw [he]
  · exact ⟨⟨h1, h2, h3, h4⟩, le_refl _⟩
  · exact ⟨⟨by omega, hlt, h3, h4⟩, by omega⟩

/-- One event-loop step preserves the invariant and never decreases the
question index. -/
theorem applyOp_step (op : Op) (s : Session) (h : SessionInv s) :
    SessionInv (applyOp op s) ∧
    s.currentQuestionIndex ≤ (applyOp op s).currentQuestionIndex := by
  cases op with
  | startQ now => exact inv_of_start_cases (startQuestion_cases now s) h
  | endQ => exact inv_of_idxView_eq (endQuestion_idxView s) h
  | qTimerFire => exact inv_of_idxView_eq (questionTimerFire_idxView s) h
  | lbTimerFire now => exact inv_of_start_cases (leaderboardTimerFire_cases now s) h
  | lobbyFire now => exact inv_of_start_cases (lobbyTimerFire_cases now s) h
  | answer sid e now => exact inv_of_idxView_eq (handleAnswer_idxView s sid e now) h
  | configure c sh r =>
    show SessionInv (configureRun c sh r s) ∧
      s.currentQuestionIndex ≤ (configureRun c sh r s).currentQuestionIndex
    obtain ⟨hb, hcase⟩ := configureRun_cases c sh r s
    rcases hcase with he | ⟨hi, hsi, hq⟩
    · rw [he]
      exact ⟨h, le_refl _⟩
    · obtain ⟨h1, h2, h3, h4⟩ := h
      have hlen := buildRunQuestions_length_bounds s.baseQuestions c sh r h3
      refine ⟨⟨?_, ?_, ?_, ?_⟩, ?_⟩
      · rw [hi]
      · rw [hi, hq]
        have := hlen.1
        omega
      · rw [hb]
        exact h3
      · rw [hq]
        exact hlen.1
      · rw [hi, hsi]
  | join pid sid name now =>
    exact inv_of_idxView_eq (playerJoin_idxView pid sid name now s) h
  | hostDisc => exact inv_of_idxView_eq (hostDisconnect_idxView s) h
  | playerDisc sid now =>
    exact inv_of_idxView_eq (playerDisconnect_idxView sid now s) h
  | graceFire pid => exact inv_of_idxView_eq (graceTimerFire_idxView pid s) h

theorem applyOps_step (ops : List Op) :
    ∀ s : Session, SessionInv s →
      SessionInv (applyOps ops s) ∧
      s.currentQuestionIndex ≤ (applyOps ops s).currentQuestionIndex := by
  induction ops with
  | nil => intro s hs; exact ⟨hs, le_refl _⟩
  | cons op rest ih =>
    intro s hs
    obtain ⟨h1, h2⟩ := applyOp_step op s hs
    obtain ⟨h3, h4⟩ := ih (applyOp op s) h1
    exact ⟨h3, le_trans h2 h4⟩

/-- A freshly created session satisfies the invariant whenever its template
has at least one question. -/
theorem createSessionFromTemplate_inv (tq : List Question) (dur : ℚ)
    (host : Option Nat) (h : 1 ≤ tq.length) :
    SessionInv (createSessionFromTemplate tq dur host) := by
  unfold SessionInv createSessionFromTemplate
  refine ⟨by norm_num, ?_, h, h⟩
  simp only
  omega

/-- C8: under every sequence of engine operations (question starts and ends,
run configuration, answer submissions, timer firings, joins and
disconnects), `currentQuestionIndex` never decreases and never exceeds
`questions.length - 1`; there is no transition past the last index — at the
end of the run the index stays at the last question while the finished
event is emitted. -/
theorem index_monotone_and_bounded (ops : List Op) (s : Session)
    (h : SessionInv s) :
    s.currentQuestionIndex ≤ (applyOps ops s).currentQuestionIndex ∧
    -1 ≤ (applyOps ops s).currentQuestionIndex ∧
    (applyOps ops s).currentQuestionIndex ≤
      ((applyOps ops s).questions.length : ℤ) - 1 := by
  obtain ⟨hi, hm⟩ := applyOps_step ops s h
  obtain ⟨h1, h2, h3, h4⟩ := hi
  exact ⟨hm, h1, by omega⟩

/-- Witness for C8: a concrete trace through a three-question run — start,
answer, timer fire, leaderboard fires, configure attempt mid-run — keeps the
index monotone and in range. -/
theorem index_monotone_and_bounded_witness :
    SessionInv (createSessionFromTemplate [qLetterA, qLetterA, qLetterA] 20 (some 9)) ∧
    ((createSessionFromTemplate [qLetterA, qLetterA, qLetterA] 20 (some 9)).currentQuestionIndex ≤
      (applyOps [.startQ 0, .answer 5 1000 1, .qTimerFire, .lbTimerFire 5,
        .configure (some 1) false [], .startQ 9, .endQ]
        (createSessionFromTemplate [qLetterA, qLetterA, qLetterA] 20 (some 9))).currentQuestionIndex ∧
     -1 ≤ (applyOps [.startQ 0, .answer 5 1000 1, .qTimerFire, .lbTimerFire 5,
        .configure (some 1) false [], .startQ 9, .endQ]
        (createSessionFromTemplate [qLetterA, qLetterA, qLetterA] 20 (some 9))).currentQuestionIndex ∧
     (applyOps [.startQ 0, .answer 5 1000 1, .qTimerFire, .lbTimerFire 5,
        .configure (some 1) false [], .startQ 9, .endQ]
        (createSessionFromTemplate [qLetterA, qLetterA, qLetterA] 20 (some 9))).currentQuestionIndex ≤
      (((applyOps [.startQ 0, .answer 5 1000 1, .qTimerFire, .lbTimerFire 5,
        .configure (some 1) false [], .startQ 9, .endQ]
        (createSessionFromTemplate [qLetterA, qLetterA, qLetterA] 20 (some 9))).questions.length : ℤ) - 1)) :=
  ⟨⟨by decide, by decide, by decide, by decide⟩,
    index_monotone_and_bounded _ _ ⟨by decide, by decide, by decide, by decide⟩⟩

/-! ## Determinism of the evaluator (C6)

The only state `evaluateAnswer` touches is the synonym cache; these lemmas
show a second identical call — run against the cache the first call left
behind — reproduces the first call's result exactly. -/

theorem fetchSynonyms_empty_norm (o : SynOracle) (c : SynCache) (w : String)
    (h : normaliseAnswer w = "") : fetchSynonyms o c w = ([], c) := by
  unfold fetchSynonyms
  simp [h]

theorem fetchSynonyms_multiword (o : SynOracle) (c : SynCache) (w : String)
    (hne : normaliseAnswer w ≠ "") (hsp : ' ' ∈ (normaliseAnswer w).data) :
    fetchSynonyms o c w = ([], (normaliseAnswer w, []) :: c) := by
  unfold fetchSynonyms
  simp [hne, hsp]

theorem fetchSynonyms_of_lookup (o : SynOracle) (c : SynCache) (w : String)
    (r : List String) (hne : normaliseAnswer w ≠ "")
    (hsp : ' ' ∉ (normaliseAnswer w).data)
    (h : c.lookup (normaliseAnswer w) = some r) :
    fetchSynonyms o c w = (r, c) := by
  unfold fetchSynonyms
  simp [hne, hsp, h]

theorem fetchSynonyms_establishes (o : SynOracle) (c : SynCache) (w : String)
    (hne : normaliseAnswer w ≠ "") (hsp : ' ' ∉ (normaliseAnswer w).data) :
    (fetchSynonyms o c w).2.lookup (normaliseAnswer w) =
      some (fetchSynonyms o c w).1 := by
  unfold fetchSynonyms
  rw [if_neg hne, if_neg (by simpa using hsp)]
  rcases hl : (c.lookup (normaliseAnswer w)) with _ | r
  · rcases hf : o.fetch (normaliseAnswer w) with _ | raw <;> simp [List.lookup]
  · simpa using hl

theorem fetchSynonyms_lookup_preserved (o : SynOracle) (c : SynCache)
    (w k : String) (v : List String) (hk : ' ' ∉ k.data)
    (h : c.lookup k = some v) : (fetchSynonyms o c w).2.lookup k = some v := by
  unfold fetchSynonyms
  by_cases h1 : normaliseAnswer w = ""
  · simpa [h1] using h
  · by_cases h2 : ' ' ∈ (normaliseAnswer w).data
    · have hne : ¬(k == normaliseAnswer w) = true := by
        simp only [beq_iff_eq]
        intro he
        rw [he] at hk
        exact hk h2
      simp [h1, h2, List.lookup, hne, h]
    · rw [if_neg h1, if_neg (by simpa using h2)]
      rcases hl : (c.lookup (normaliseAnswer w)) with _ | r
      · have hne : ¬(k == normaliseAnswer w) = true := by
          simp only [beq_iff_eq]
          intro he
          rw [he, hl] at h
          exact Option.noConfusion h
        rcases hf : o.fetch (normaliseAnswer w) with _ | raw <;>
          simp [List.lookup, hne, h]
      · simpa using h

theorem fetchAllSynonyms_cons (o : SynOracle) (c : SynCache) (w : String)
    (ws : List String) :
    fetchAllSynonyms o c (w :: ws) =
      ((fetchSynonyms o c w).1 ::
        (fetchAllSynonyms o (fetchSynonyms o c w).2 ws).1,
       (fetchAllSynonyms o (fetchSynonyms o c w).2 ws).2) := by
  rcases hf : fetchSynonyms o c w with ⟨r, c'⟩
  rcases hg : fetchAllSynonyms o c' ws with ⟨rs, c1⟩
  simp only [fetchAllSynonyms, hf, hg]

/-- Cache extension: every binding for a space-free key visible in `a`
remains visible in `b`. -/
def CacheExt (a b : SynCache) : Prop :=
  ∀ k v, ' ' ∉ k.data → a.lookup k = some v → b.lookup k = some v

theorem fetchAllSynonyms_lookup_preserved (o : SynOracle) (ws : List String) :
    ∀ (c : SynCache) (k : String) (v : List String),
      ' ' ∉ k.data → c.lookup k = some v →
      (fetchAllSynonyms o c ws).2.lookup k = some v := by
  induction ws with
  | nil => intro c k v _ h; exact h
  | cons w ws ih =>
    intro c k v hk h
    rw [fetchAllSynonyms_cons]
    exact ih (fetchSynonyms o c w).2 k v hk
      (fetchSynonyms_lookup_preserved o c w k v hk h)

theorem fetchAllSynonyms_replay (o : SynOracle) :
    ∀ (ws : List String) (c d : SynCache),
      CacheExt (fetchAllSynonyms o c ws).2 d →
      (fetchAllSynonyms o d ws).1 = (fetchAllSynonyms o c ws).1 := by
  intro ws
  induction ws with
  | nil => intro c d _; rfl
  | cons w ws ih =>
    intro c d hx
    rw [fetchAllSynonyms_cons] at hx ⊢
    rw [fetchAllSynonyms_cons o c w ws]
    simp only at hx
    by_cases hne : normaliseAnswer w = ""
    · rw [fetchSynonyms_empty_norm o c w hne] at hx ⊢
      rw [fetchSynonyms_empty_norm o d w hne]
      simp only [List.cons.injEq]
      exact ⟨trivial, ih c d hx⟩
    · by_cases hsp : ' ' ∈ (normaliseAnswer w).data
      · rw [fetchSynonyms_multiword o c w hne hsp] at hx ⊢
        rw [fetchSynonyms_multiword o d w hne hsp]
        simp only [List.cons.injEq]
        refine ⟨trivial, ih ((normaliseAnswer w, []) :: c) ((normaliseAnswer w, []) :: d) ?_⟩
        intro k v hk hl
        have hne2 : ¬(k == normaliseAnswer w) = true := by
          simp only [beq_iff_eq]
          intro he
          rw [he] at hk
          exact hk hsp
        simp only [List.lookup, hne2, Bool.false_eq_true, if_false]
        exact hx k v hk hl
      · have hest : (fetchSynonyms o c w).2.lookup (normaliseAnswer w) =
            some (fetchSynonyms o c w).1 :=
          fetchSynonyms_establishes o c w hne hsp
        have hc1 : (fetchAllSynonyms o (fetchSynonyms o c w).2 ws).2.lookup
            (normaliseAnswer w) = some (fetchSynonyms o c w).1 :=
          fetchAllSynonyms_lookup_preserved o ws (fetchSynonyms o c w).2
            (normaliseAnswer w) (fetchSynonyms o c w).1 hsp hest
        have hd : d.lookup (normaliseAnswer w) = some (fetchSynonyms o c w).1 :=
          hx (normaliseAnswer w) (fetchSynonyms o c w).1 hsp hc1
        rw [fetchSynonyms_of_lookup o d w (fetchSynonyms o c w).1 hne hsp hd]
        simp only [List.cons.injEq]
        exact ⟨trivial, ih (fetchSynonyms o c w).2 d hx⟩

theorem collectSynonyms_eq (o : SynOracle) (c : SynCache)
    (answers : List String) :
    collectSynonyms o c answers =
      (dedupStr (((fetchAllSynonyms o c answers).1.flatten).filter (fun s => s ≠ "")),
       (fetchAllSynonyms o c answers).2) := by
  rcases h : fetchAllSynonyms o c answers with ⟨rs, c1⟩
  simp only [collectSynonyms, h]

theorem collectSynonyms_replay (o : SynOracle) (c : SynCache)
    (answers : List String) :
    (collectSynonyms o (collectSynonyms o c answers).2 answers).1 =
      (collectSynonyms o c answers).1 := by
  rw [collectSynonyms_eq o c answers, collectSynonyms_eq]
  simp only
  rw [fetchAllSynonyms_replay o answers c (fetchAllSynonyms o c answers).2
    (fun k v _ h => h)]

theorem rulesLadder_snd (o : SynOracle) (c : SynCache) (e : List String)
    (ns : String) (nexp np : List String) (cfg : RuleConfig) :
    (rulesLadder o c e ns nexp np cfg).2 =
      if cfg.allowSynonyms then (collectSynonyms o c e).2 else c := by
  unfold rulesLadder
  by_cases hs : cfg.allowSynonyms = true
  · rcases h1 : collectSynonyms o c e with ⟨syns, c1⟩
    simp [hs, h1]
  · simp only [Bool.not_eq_true] at hs
    simp [hs]

theorem rulesLadder_fst_congr (o : SynOracle) (c d : SynCache) (e : List String)
    (ns : String) (nexp np : List String) (cfg : RuleConfig)
    (h : (if cfg.allowSynonyms then (collectSynonyms o d e).1 else []) =
         (if cfg.allowSynonyms then (collectSynonyms o c e).1 else [])) :
    (rulesLadder o d e ns nexp np cfg).1 =
      (rulesLadder o c e ns nexp np cfg).1 := by
  unfold rulesLadder
  by_cases hs : cfg.allowSynonyms = true
  · rcases h1 : collectSynonyms o c e with ⟨syns, c1⟩
    rcases h2 : collectSynonyms o d e with ⟨syns2, c2⟩
    rw [h1, h2] at h
    simp only [hs, if_true] at h
    simp [hs, h1, h2, h]
  · simp only [Bool.not_eq_true] at hs
    simp [hs]

theorem rulesLadder_replay (o : SynOracle) (c : SynCache) (e : List String)
    (ns : String) (nexp np : List String) (cfg : RuleConfig) :
    (rulesLadder o (rulesLadder o c e ns nexp np cfg).2 e ns nexp np cfg).1 =
      (rulesLadder o c e ns nexp np cfg).1 := by
  apply rulesLadder_fst_congr
  by_cases hs : cfg.allowSynonyms = true
  · simp only [hs, if_true, rulesLadder_snd, collectSynonyms_replay]
  · simp [hs]

theorem decideVerdict_no_judge (judge : LlmJudge) (o : SynOracle) (c : SynCache)
    (q : Question) (sub : String) (cfg : RuleConfig)
    (h : judge.configured = false) :
    decideVerdict judge o c q sub cfg =
      (.ok ⟨(rulesLadder o c ((q.answer :: q.alternateAnswers).filter (fun s => s ≠ ""))
               (normaliseAnswer sub)
               (((q.answer :: q.alternateAnswers).filter (fun s => s ≠ "")).map normaliseAnswer)
               (q.partialAnswers.map normaliseAnswer) cfg).1.1,
            (rulesLadder o c ((q.answer :: q.alternateAnswers).filter (fun s => s ≠ ""))
               (normaliseAnswer sub)
               (((q.answer :: q.alternateAnswers).filter (fun s => s ≠ "")).map normaliseAnswer)
               (q.partialAnswers.map normaliseAnswer) cfg).1.2, "rules", ""⟩,
       (rulesLadder o c ((q.answer :: q.alternateAnswers).filter (fun s => s ≠ ""))
          (normaliseAnswer sub)
          (((q.answer :: q.alternateAnswers).filter (fun s => s ≠ "")).map normaliseAnswer)
          (q.partialAnswers.map normaliseAnswer) cfg).2) := by
  unfold decideVerdict
  rw [if_neg (by simp [h])]
  rcases hr : rulesLadder o c ((q.answer :: q.alternateAnswers).filter (fun s => s ≠ ""))
      (normaliseAnswer sub)
      (((q.answer :: q.alternateAnswers).filter (fun s => s ≠ "")).map normaliseAnswer)
      (q.partialAnswers.map normaliseAnswer) cfg with ⟨⟨cc, pp⟩, c1⟩
  simp only []
  rw [if_neg (by simp [h])]

theorem evaluateAnswer_snd (judge : LlmJudge) (o : SynOracle) (c : SynCache)
    (q : Question) (sub : String) (opts : EvalOptions) (cfg : RuleConfig) :
    (evaluateAnswer judge o c q sub opts cfg).2 =
      (decideVerdict judge o c q sub cfg).2 := by
  rcases hd : decideVerdict judge o c q sub cfg with ⟨ev, c'⟩
  cases ev <;> simp [evaluateAnswer, hd]

/-- C6: with no semantic judge configured, `evaluateAnswer` is
deterministic — a second call with the identical question, submission,
timing and strictness profile, run against the synonym cache the first call
left behind, returns exactly the first call's result. -/
theorem evaluator_deterministic (judge : LlmJudge) (o : SynOracle) (c : SynCache)
    (q : Question) (sub : String) (opts : EvalOptions) (cfg : RuleConfig)
    (h : judge.configured = false) :
    (evaluateAnswer judge o ((evaluateAnswer judge o c q sub opts cfg).2)
        q sub opts cfg).1 =
      (evaluateAnswer judge o c q sub opts cfg).1 := by
  have e1 := decideVerdict_no_judge judge o c q sub cfg h
  have hX : (evaluateAnswer judge o c q sub opts cfg).2 =
      (rulesLadder o c ((q.answer :: q.alternateAnswers).filter (fun s => s ≠ ""))
        (normaliseAnswer sub)
        (((q.answer :: q.alternateAnswers).filter (fun s => s ≠ "")).map normaliseAnswer)
        (q.partialAnswers.map normaliseAnswer) cfg).2 := by
    rw [evaluateAnswer_snd, e1]
  have e2 := decideVerdict_no_judge judge o
    ((evaluateAnswer judge o c q sub opts cfg).2) q sub cfg h
  rw [hX] at e2
  have hrep := rulesLadder_replay o c
    ((q.answer :: q.alternateAnswers).filter (fun s => s ≠ ""))
    (normaliseAnswer sub)
    (((q.answer :: q.alternateAnswers).filter (fun s => s ≠ "")).map normaliseAnswer)
    (q.partialAnswers.map normaliseAnswer) cfg
  rw [hX]
  unfold evaluateAnswer
  rw [e2, e1]
  simp only [hrep]

/-- Witness for C6: the concrete repeated evaluation with no judge
configured returns identical results. -/
theorem evaluator_deterministic_witness :
    judgeOff.configured = false ∧
    (evaluateAnswer judgeOff oracleDown
        ((evaluateAnswer judgeOff oracleDown [] qCapital "paris" optsPlain cfgNormal).2)
        qCapital "paris" optsPlain cfgNormal).1 =
      (evaluateAnswer judgeOff oracleDown [] qCapital "paris" optsPlain cfgNormal).1 :=
  ⟨rfl, evaluator_deterministic judgeOff oracleDown [] qCapital "paris" optsPlain
    cfgNormal rfl⟩


/-! ## C10: idempotence of `normaliseAnswer`

Strategy: every code point in the output of `normaliseCore` is a
`cleanChar` (a letter, digit or plain space that every character-level
stage fixes), the collapse stage leaves no two adjacent spaces, and the
trim stage leaves no space at either edge; on such a list every stage of
the pipeline is the identity. -/

theorem nfkd_not_key (m : Nat) (h : m ∉ nfkdKeys) : nfkdN m = [m] := by
  unfold nfkdN
  split
  all_goals first
    | rfl
    | (exfalso; apply h; decide)

theorem nfkdKeys_not_fixed : ∀ m ∈ nfkdKeys, nfkdN m ≠ [m] := by
  have hall : nfkdKeys.all (fun k => !(nfkdN k == [k])) = true := by decide
  intro m hm
  have := List.all_eq_true.mp hall m hm
  simpa using this

theorem mem_nfkd_fixed (d m : Nat) (h : m ∈ nfkdN d) : nfkdN m = [m] := by
  by_cases hd : d ∈ nfkdKeys
  · have hsub : ∀ d' ∈ nfkdKeys, ∀ m' ∈ nfkdN d', (nfkdN m' == [m']) = true := by decide
    simpa using hsub d hd m h
  · rw [nfkd_not_key d hd] at h
    simp only [List.mem_singleton] at h
    subst h
    exact nfkd_not_key m hd

theorem lower_idem (n : Nat) : toLowerN (toLowerN n) = toLowerN n := by
  unfold toLowerN
  split_ifs <;> omega

theorem letterish_not_removed (n : Nat) (h : (isLetterN n || isDigitN n) = true) :
    isCombiningN n = false ∧ isApostropheN n = false ∧ isDoubleQuoteN n = false ∧
    isDashN n = false ∧ isSpaceN n = false := by
  unfold isLetterN isDigitN at h
  unfold isCombiningN isApostropheN isDoubleQuoteN isDashN isSpaceN
  simp only [Bool.or_eq_true, Bool.and_eq_true, decide_eq_true_eq, beq_iff_eq,
    bne_iff_ne, ne_eq, Bool.or_eq_false_iff, Bool.and_eq_false_iff,
    decide_eq_false_iff_not, beq_eq_false_iff_ne, not_le] at h ⊢
  omega

theorem nfkd_lower_fixed (m : Nat) (h : nfkdN m = [m]) :
    nfkdN (toLowerN m) = [toLowerN m] := by
  have hm : m ∉ nfkdKeys := fun hk => nfkdKeys_not_fixed m hk h
  unfold toLowerN
  split_ifs with h1 h2
  · apply nfkd_not_key
    intro hk
    simp only [nfkdKeys, List.mem_cons, List.not_mem_nil, or_false] at hk
    omega
  · apply nfkd_not_key
    intro hk
    simp only [nfkdKeys, List.mem_cons, List.not_mem_nil, or_false] at hk hm
    omega
  · exact h

theorem clean_of_pipeline (d m : Nat) (hmem : m ∈ nfkdN d)
    (hl : (isLetterN (toLowerN m) || isDigitN (toLowerN m)) = true) :
    cleanChar (toLowerN m) = true := by
  have hfix := mem_nfkd_fixed d m hmem
  have h4 := nfkd_lower_fixed m hfix
  have h2 := lower_idem m
  obtain ⟨p1, p2, p3, p4, p5⟩ := letterish_not_removed _ hl
  unfold cleanChar
  simp [hl, h4, h2, p1, p2, p3, p4, p5]

theorem cleanChar_spec (n : Nat) (h : cleanChar n = true) :
    nfkdN n = [n] ∧ isCombiningN n = false ∧ isApostropheN n = false ∧
    isDoubleQuoteN n = false ∧ isDashN n = false ∧ toLowerN n = n ∧
    ((isLetterN n || isDigitN n) || isSpaceN n) = true ∧
    (isSpaceN n = true → n = 0x20) := by
  unfold cleanChar at h
  simp only [Bool.and_eq_true, Bool.or_eq_true, beq_iff_eq, Bool.not_eq_true'] at h
  obtain ⟨⟨⟨⟨⟨⟨⟨hA, hB⟩, hC⟩, hD⟩, hE⟩, hF⟩, hG⟩, hH⟩ := h
  refine ⟨hB, hC, hD, hE, hF, hG, ?_, ?_⟩
  · rcases hA with hA | hA
    · simp [hA]
    · subst hA
      decide
  · intro hs
    rcases hH with hH | hH
    · rw [hH] at hs
      exact absurd hs (by simp)
    · exact hH

theorem collapseWs_nil : collapseWs [] = [] := rfl

theorem collapseWs_cons (a : Nat) (t : List Nat) :
    collapseWs (a :: t) =
      if isSpaceN a then
        match collapseWs t with
        | 0x20 :: _ => collapseWs t
        | _ => 0x20 :: collapseWs t
      else a :: collapseWs t := rfl

theorem mem_collapseWs (l : List Nat) (n : Nat) (h : n ∈ collapseWs l) :
    n = 0x20 ∨ (n ∈ l ∧ isSpaceN n = false) := by
  induction l with
  | nil => rw [collapseWs_nil] at h; exact absurd h (List.not_mem_nil n)
  | cons a t ih =>
    rw [collapseWs_cons] at h
    by_cases hsa : isSpaceN a = true
    · rw [if_pos hsa] at h
      split at h
      · rcases ih h with h' | h'
        · exact Or.inl h'
        · exact Or.inr ⟨List.mem_cons_of_mem a h'.1, h'.2⟩
      · rcases List.mem_cons.mp h with rfl | h'
        · exact Or.inl rfl
        · rcases ih h' with h'' | h''
          · exact Or.inl h''
          · exact Or.inr ⟨List.mem_cons_of_mem a h''.1, h''.2⟩
    · rw [if_neg hsa] at h
      rcases List.mem_cons.mp h with rfl | h'
      · exact Or.inr ⟨List.mem_cons_self n t, by simpa using hsa⟩
      · rcases ih h' with h'' | h''
        · exact Or.inl h''
        · exact Or.inr ⟨List.mem_cons_of_mem a h''.1, h''.2⟩

theorem collapse_chain : ∀ l : List Nat, List.Chain' spacedApart (collapseWs l) := by
  intro l
  induction l with
  | nil => rw [collapseWs_nil]; exact List.chain'_nil
  | cons a t ih =>
    rw [collapseWs_cons]
    by_cases hsa : isSpaceN a = true
    · rw [if_pos hsa]
      split
      · exact ih
      · rw [List.chain'_cons']
        refine ⟨?_, ih⟩
        intro y hy
        have hmem : y ∈ collapseWs t := List.mem_of_mem_head? hy
        rcases mem_collapseWs t y hmem with rfl | ⟨_, hns⟩
        · rename_i hne
          exfalso
          cases hh : collapseWs t with
          | nil => rw [hh] at hy; exact absurd hy (by simp)
          | cons b bt =>
            rw [hh] at hy
            simp only [List.head?, Option.mem_def, Option.some.injEq] at hy
            subst hy
            exact hne bt (by rw [hh])
        · exact fun hc => (by simpa [hns] using hc.2)
    · rw [if_neg hsa]
      rw [List.chain'_cons']
      refine ⟨?_, ih⟩
      intro y _
      exact fun hc => hsa hc.1

theorem collapseWs_eq_self (l : List Nat)
    (h20 : ∀ n ∈ l, isSpaceN n = true → n = 0x20)
    (hch : List.Chain' spacedApart l) : collapseWs l = l := by
  induction l with
  | nil => rfl
  | cons a t ih =>
    have iht : collapseWs t = t :=
      ih (fun n hn hs => h20 n (List.mem_cons_of_mem a hn) hs) hch.tail
    rw [collapseWs_cons, iht]
    by_cases hsa : isSpaceN a = true
    · have ha20 : a = 0x20 := h20 a (List.mem_cons_self a t) hsa
      subst ha20
      rw [if_pos hsa]
      split
      · exfalso
        have := (List.chain'_cons.mp hch).1
        exact this (by decide)
      · rfl
    · rw [if_neg hsa]

theorem dropWhile_id (p : Nat → Bool) (l : List Nat)
    (h : ∀ a, l.head? = some a → p a = false) : l.dropWhile p = l := by
  cases l with
  | nil => rfl
  | cons a t =>
    rw [List.dropWhile_cons, h a rfl]
    simp

theorem trimEdges_eq_self (l : List Nat)
    (hh : ∀ a, l.head? = some a → isSpaceN a = false)
    (hl : ∀ a, l.getLast? = some a → isSpaceN a = false) : trimEdges l = l := by
  unfold trimEdges
  rw [dropWhile_id isSpaceN l hh]
  rw [dropWhile_id isSpaceN l.reverse
    (fun a ha => hl a (by rwa [List.head?_reverse] at ha))]
  exact List.reverse_reverse l

theorem trimEdges_head (l : List Nat) (a : Nat)
    (h : (trimEdges l).head? = some a) : isSpaceN a = false := by
  unfold trimEdges at h
  have hsuf : (l.dropWhile isSpaceN).reverse.dropWhile isSpaceN <:+
      (l.dropWhile isSpaceN).reverse := List.dropWhile_suffix _
  have hpre : ((l.dropWhile isSpaceN).reverse.dropWhile isSpaceN).reverse <+:
      l.dropWhile isSpaceN := by
    have := List.reverse_prefix.mpr hsuf
    rwa [List.reverse_reverse] at this
  obtain ⟨t, ht⟩ := hpre
  cases hpe : ((l.dropWhile isSpaceN).reverse.dropWhile isSpaceN).reverse with
  | nil => rw [hpe] at h; exact absurd h (by simp)
  | cons b bt =>
    rw [hpe] at h ht
    simp only [List.head?, Option.some.injEq] at h
    subst h
    have hzh : (l.dropWhile isSpaceN).head? = some b := by
      rw [← ht]
      rfl
    have h2 := List.head?_dropWhile_not isSpaceN l
    rw [hzh] at h2
    simpa using h2

theorem trimEdges_getLast (l : List Nat) (a : Nat)
    (h : (trimEdges l).getLast? = some a) : isSpaceN a = false := by
  rw [← List.head?_reverse] at h
  unfold trimEdges at h
  rw [List.reverse_reverse] at h
  have h2 := List.head?_dropWhile_not isSpaceN (l.dropWhile isSpaceN).reverse
  rw [h] at h2
  simpa using h2

theorem trimEdges_chain (l : List Nat) (h : List.Chain' spacedApart l) :
    List.Chain' spacedApart (trimEdges l) := by
  have hsymm : ∀ a b, spacedApart a b → spacedApart b a :=
    fun a b hr hc => hr ⟨hc.2, hc.1⟩
  unfold trimEdges
  have h1 : List.Chain' spacedApart (l.dropWhile isSpaceN) :=
    h.suffix (List.dropWhile_suffix _)
  have h2 : List.Chain' spacedApart (l.dropWhile isSpaceN).reverse :=
    List.chain'_reverse.mpr (h1.imp hsymm)
  have h3 : List.Chain' spacedApart
      ((l.dropWhile isSpaceN).reverse.dropWhile isSpaceN) :=
    h2.suffix (List.dropWhile_suffix _)
  exact List.chain'_reverse.mpr (h3.imp hsymm)

theorem map_id_of (f : Nat → Nat) (l : List Nat) (h : ∀ n ∈ l, f n = n) :
    l.map f = l := by
  induction l with
  | nil => rfl
  | cons a t ih =>
    rw [List.map_cons, h a (List.mem_cons_self a t),
      ih (fun n hn => h n (List.mem_cons_of_mem a hn))]

theorem mem_trimEdges (l : List Nat) (n : Nat) (h : n ∈ trimEdges l) : n ∈ l := by
  unfold trimEdges at h
  rw [List.mem_reverse] at h
  have h1 := (List.dropWhile_suffix isSpaceN).sublist.subset h
  rw [List.mem_reverse] at h1
  exact (List.dropWhile_suffix isSpaceN).sublist.subset h1

theorem mem_nfkdStage (l : List Nat) (n : Nat) (h : n ∈ nfkdStage l) :
    ∃ d ∈ l, n ∈ nfkdN d := by
  unfold nfkdStage at h
  rw [List.mem_flatten] at h
  obtain ⟨sub, hsub, hn⟩ := h
  rw [List.mem_map] at hsub
  obtain ⟨d, hd, heq⟩ := hsub
  exact ⟨d, hd, heq ▸ hn⟩

theorem clean_normaliseCore (l : List Nat) :
    ∀ n ∈ normaliseCore l, cleanChar n = true := by
  intro n hn
  unfold normaliseCore at hn
  have h1 := mem_trimEdges _ _ hn
  rcases mem_collapseWs _ _ h1 with h20 | ⟨hmem, hns⟩
  · subst h20; decide
  · unfold keepStage at hmem
    rw [List.mem_map] at hmem
    obtain ⟨m1, hm1, heq1⟩ := hmem
    by_cases hk : ((isLetterN m1 || isDigitN m1) || isSpaceN m1) = true
    · rw [if_pos hk] at heq1
      subst heq1
      have hlet : (isLetterN m1 || isDigitN m1) = true := by
        rcases Bool.or_eq_true _ _ |>.mp hk with h | h
        · exact h
        · rw [h] at hns; exact absurd hns (by simp)
      unfold lowerStage at hm1
      rw [List.mem_map] at hm1
      obtain ⟨m2, hm2, heq2⟩ := hm1
      unfold dashesStage at hm2
      rw [List.mem_map] at hm2
      obtain ⟨m3, hm3, heq3⟩ := hm2
      by_cases hd3 : isDashN m3 = true
      · rw [if_pos hd3] at heq3
        subst heq3; subst heq2
        exact absurd hlet (by decide)
      · rw [if_neg hd3] at heq3
        subst heq3
        unfold quotesStage at hm3
        rw [List.mem_map] at hm3
        obtain ⟨m4, hm4, heq4⟩ := hm3
        by_cases hq4 : isDoubleQuoteN m4 = true
        · rw [if_pos hq4] at heq4
          subst heq4; subst heq2
          exact absurd hlet (by decide)
        · rw [if_neg hq4] at heq4
          subst heq4
          unfold stripApostrophesStage at hm4
          have hm5 := List.mem_of_mem_filter hm4
          unfold stripMarksStage at hm5
          have hm6 := List.mem_of_mem_filter hm5
          obtain ⟨d, _, hdm⟩ := mem_nfkdStage _ _ hm6
          subst heq2
          exact clean_of_pipeline d m4 hdm hlet
    · rw [if_neg hk] at heq1
      subst heq1; decide

theorem cleanChar_valid (n : Nat) (h : cleanChar n = true) : n.isValidChar := by
  left
  have h1 : ((isLetterN n || isDigitN n) || n == 0x20) = true := by
    unfold cleanChar at h
    simp only [Bool.and_eq_true] at h
    exact h.1.1.1.1.1.1.1
  simp only [isLetterN, isDigitN, Bool.or_eq_true, Bool.and_eq_true,
    decide_eq_true_eq, beq_iff_eq, bne_iff_ne, ne_eq] at h1
  omega

theorem char_roundtrip (n : Nat) (h : n.isValidChar) :
    (Char.ofNat n).toNat = n := by
  unfold Char.ofNat
  rw [dif_pos h]
  rfl

theorem nfkdStage_id (l : List Nat) :
    (∀ n ∈ l, cleanChar n = true) → nfkdStage l = l := by
  induction l with
  | nil => intro _; rfl
  | cons a t ih =>
    intro h
    show (((a :: t).map nfkdN).flatten) = a :: t
    rw [List.map_cons, List.flatten_cons,
      (cleanChar_spec a (h a (List.mem_cons_self a t))).1]
    have ht := ih (fun n hn => h n (List.mem_cons_of_mem a hn))
    unfold nfkdStage at ht
    rw [ht]
    rfl

theorem stripMarksStage_id (l : List Nat)
    (h : ∀ n ∈ l, cleanChar n = true) : stripMarksStage l = l := by
  unfold stripMarksStage
  rw [List.filter_eq_self]
  intro a ha
  simp [(cleanChar_spec a (h a ha)).2.1]

theorem stripApostrophesStage_id (l : List Nat)
    (h : ∀ n ∈ l, cleanChar n = true) : stripApostrophesStage l = l := by
  unfold stripApostrophesStage
  rw [List.filter_eq_self]
  intro a ha
  simp [(cleanChar_spec a (h a ha)).2.2.1]

theorem quotesStage_id (l : List Nat)
    (h : ∀ n ∈ l, cleanChar n = true) : quotesStage l = l := by
  unfold quotesStage
  exact map_id_of _ _ (fun n hn => by
    rw [if_neg]
    simp [(cleanChar_spec n (h n hn)).2.2.2.1])

theorem dashesStage_id (l : List Nat)
    (h : ∀ n ∈ l, cleanChar n = true) : dashesStage l = l := by
  unfold dashesStage
  exact map_id_of _ _ (fun n hn => by
    rw [if_neg]
    simp [(cleanChar_spec n (h n hn)).2.2.2.2.1])

theorem lowerStage_id (l : List Nat)
    (h : ∀ n ∈ l, cleanChar n = true) : lowerStage l = l := by
  unfold lowerStage
  exact map_id_of _ _ (fun n hn => (cleanChar_spec n (h n hn)).2.2.2.2.2.1)

theorem keepStage_id (l : List Nat)
    (h : ∀ n ∈ l, cleanChar n = true) : keepStage l = l := by
  unfold keepStage
  exact map_id_of _ _ (fun n hn => by
    rw [if_pos ((cleanChar_spec n (h n hn)).2.2.2.2.2.2.1)])

theorem normaliseCore_idempotent (l : List Nat) :
    normaliseCore (normaliseCore l) = normaliseCore l := by
  have hcl := clean_normaliseCore l
  have hch : List.Chain' spacedApart (normaliseCore l) :=
    trimEdges_chain _ (collapse_chain _)
  have hh : ∀ a, (normaliseCore l).head? = some a → isSpaceN a = false :=
    fun a ha => trimEdges_head _ a ha
  have hgl : ∀ a, (normaliseCore l).getLast? = some a → isSpaceN a = false :=
    fun a ha => trimEdges_getLast _ a ha
  have hl20 : ∀ n ∈ normaliseCore l, isSpaceN n = true → n = 0x20 :=
    fun n hn => (cleanChar_spec n (hcl n hn)).2.2.2.2.2.2.2
  show trimEdges (collapseWs (keepStage (lowerStage (dashesStage (quotesStage
    (stripApostrophesStage (stripMarksStage (nfkdStage (normaliseCore l)))))))))
    = normaliseCore l
  rw [nfkdStage_id _ hcl, stripMarksStage_id _ hcl,
    stripApostrophesStage_id _ hcl, quotesStage_id _ hcl,
    dashesStage_id _ hcl, lowerStage_id _ hcl, keepStage_id _ hcl,
    collapseWs_eq_self _ hl20 hch, trimEdges_eq_self _ hh hgl]

/-- C10: `normaliseAnswer` is idempotent — applying it to its own output
returns that output unchanged, for every input string. -/
theorem normaliseAnswer_idempotent (s : String) :
        normaliseAnswer (normaliseAnswer s) = normaliseAnswer s := by
  unfold normaliseAnswer
  have hM : ((normaliseCore (s.data.map Char.toNat)).map Char.ofNat).map Char.toNat
      = normaliseCore (s.data.map Char.toNat) := by
    rw [List.map_map]
    exact map_id_of _ _ (fun n hn =>
      char_roundtrip n (cleanChar_valid n (clean_normaliseCore _ n hn)))
  show String.mk ((normaliseCore
      (((normaliseCore (s.data.map Char.toNat)).map Char.ofNat).map Char.toNat)).map
      Char.ofNat) = _
  rw [hM, normaliseCore_idempotent]

end Quiz
